import Mathlib

/-!
Verification of the buenosaires GitOps agent against its specification.

The Go sources are shallowly embedded: Go strings are Lean `String`
(`len` on a Go string counts UTF-8 bytes, embedded as `goLen`), Go maps
are association lists with a `none` case for a nil map, `time.Now` is an
environment-supplied clock value, and external processes (bash,
shellcheck, docker, the filesystem) are oracles supplied as explicit
environment records.
-/

namespace BuenosAires

/-- Go `strings.HasPrefix p s`: embedded on the character lists. -/
def goHasPrefix (s pre : String) : Bool := pre.data.isPrefixOf s.data

/-- Go `strings.HasSuffix`: embedded on the character lists. -/
def goHasSuffix (s suf : String) : Bool := suf.data.isSuffixOf s.data

example : goHasPrefix "Containers/web/Dockerfile" "Containers/" = true := by decide
example : goHasSuffix "deploy.sh" ".sh" = true := by decide

/-- UTF-8 byte width of one character, as Go counts it. -/
def charUtf8Size (c : Char) : Nat :=
  if c.toNat < 0x80 then 1
  else if c.toNat < 0x800 then 2
  else if c.toNat < 0x10000 then 3
  else 4

/-- Go `len(s)` on a string: the number of UTF-8 bytes. -/
def goLen (s : String) : Nat := (s.data.map charUtf8Size).sum

example : goLen "deploy.sh" = 9 := by decide

/-- Go `filepath.Base` (Unix rules): empty path gives ".", trailing slashes are
stripped, the last element is returned, an all-slash path gives "/". -/
def filepathBase (p : String) : String :=
  if p = "" then "." else
    let stripped := (p.data.reverse.dropWhile (fun c => c == '/')).reverse
    if stripped = [] then "/"
    else String.mk (stripped.reverse.takeWhile (fun c => c != '/')).reverse

example : filepathBase "Containers/web/Dockerfile" = "Dockerfile" := by decide
example : filepathBase "deploy.sh" = "deploy.sh" := by decide
example : filepathBase "" = "." := by decide
example : filepathBase "a/b/" = "b" := by decide

/-!
## Tree changes (go-git `object.Change` and `merkletrie.Action`)

A `Change` carries optional from/to entries; `Action()` errors on a change
with neither side (go-git's malformed-change error), classifies a change
with only a `To` as an insert, only a `From` as a delete, and both as a
modify. go-git's plain `DiffTree` performs no rename detection, so these
are the only actions. Reading `change.To.Name` on an absent entry yields
the zero value "" exactly as field access on Go's zero struct does.
-/

/-- go-git `merkletrie` change actions. -/
inductive GitAction where
  | insert
  | delete
  | modify
deriving DecidableEq, Repr

/-- One entry (`From` or `To`) of a go-git change; `none` is the zero entry. -/
structure Change where
  fromName : Option String
  toName : Option String
deriving DecidableEq, Repr

/-- go-git `Change.Action()`: error (`none`) on a malformed change with
neither side, insert when only `To` is set, delete when only `From` is set,
modify when both are. -/
def Change.action (c : Change) : Option GitAction :=
  match c.fromName, c.toName with
  | none, none => none
  | none, some _ => some .insert
  | some _, none => some .delete
  | some _, some _ => some .modify

/-- Go `change.To.Name`: the zero value "" when `To` is the empty entry. -/
def Change.toNameStr (c : Change) : String := c.toName.getD ""

/-- `isNewShellScript` from cmd/run.go: a change qualifies iff `Action()`
returns no error, the action is `Insert`, and the destination name ends in
".sh". -/
def isNewShellScript (c : Change) : Bool :=
  match c.action with
  | none => false
  | some a => a == .insert && goHasSuffix c.toNameStr ".sh"

/-- `isNewOrModifiedContainerFile` from cmd/run.go: a change qualifies iff
`Action()` returns no error, the destination path starts with "Containers/"
or "containers/", its basename is exactly "Dockerfile" or "Containerfile",
and the action is `Insert` or `Modify`. -/
def isNewOrModifiedContainerFile (c : Change) : Bool :=
  match c.action with
  | none => false
  | some a =>
    let path := c.toNameStr
    if !goHasPrefix path "Containers/" && !goHasPrefix path "containers/" then false
    else
      let filename := filepathBase path
      let isContainerFile := filename == "Dockerfile" || filename == "Containerfile"
      (a == .insert || a == .modify) && isContainerFile

example : isNewShellScript ⟨none, some "deploy.sh"⟩ = true := by decide
example : isNewShellScript ⟨some "deploy.sh", some "deploy.sh"⟩ = false := by decide
example : isNewOrModifiedContainerFile ⟨some "x", some "Containers/web/Dockerfile"⟩ = true := by
  decide
example : isNewOrModifiedContainerFile ⟨none, some "CONTAINERS/web/Dockerfile"⟩ = false := by
  decide

/-- ASCII lowercasing of one character, for the spec's "case-insensitive". -/
def asciiLower (c : Char) : Char :=
  if 'A' ≤ c ∧ c ≤ 'Z' then Char.ofNat (c.toNat + 32) else c

/-- The container-directory condition as the specification words it: the path
is under a top-level directory that is `Containers` or a case-insensitive
variant of that directory name. -/
def spec_underContainersDirCI (path : String) : Prop :=
  ∃ d rest : String, path = d ++ "/" ++ rest ∧ d.data.map asciiLower = "containers".data

/-- The specification's container-file classifier: action is insert or
modify, the path is under `Containers/` or a case-insensitive variant, and
the basename is one of the two recognized names. -/
def spec_containerClassifier (c : Change) : Prop :=
  (c.action = some .insert ∨ c.action = some .modify)
    ∧ spec_underContainersDirCI c.toNameStr
    ∧ (filepathBase c.toNameStr = "Dockerfile" ∨ filepathBase c.toNameStr = "Containerfile")

/-- C3 counterexample: an inserted `CONTAINERS/web/Dockerfile` is under a
case-insensitive variant of the `Containers` directory with a recognized
basename, so the claimed classifier accepts it, but
`isNewOrModifiedContainerFile` rejects it (the code only accepts the two
spellings "Containers/" and "containers/"). -/
theorem containerClassifier_rejects_uppercase_variant :
    spec_containerClassifier ⟨none, some "CONTAINERS/web/Dockerfile"⟩
      ∧ isNewOrModifiedContainerFile ⟨none, some "CONTAINERS/web/Dockerfile"⟩ = false := by
  refine ⟨⟨Or.inl rfl, ⟨"CONTAINERS", "web/Dockerfile", by decide, by decide⟩, ?_⟩, by decide⟩
  left; decide

/-- C3 amended: `isNewShellScript` accepts exactly the inserts whose
destination ends in ".sh" (a modify to a ".sh" path is never accepted), and
`isNewOrModifiedContainerFile` accepts exactly the inserts or modifies whose
destination starts with the exact spelling "Containers/" or "containers/"
and whose basename is exactly "Dockerfile" or "Containerfile". -/
theorem classifiers_characterization (c : Change) :
    (isNewShellScript c = true ↔
      c.action = some .insert ∧ goHasSuffix c.toNameStr ".sh" = true)
    ∧ (isNewOrModifiedContainerFile c = true ↔
      (c.action = some .insert ∨ c.action = some .modify)
        ∧ (goHasPrefix c.toNameStr "Containers/" = true
            ∨ goHasPrefix c.toNameStr "containers/" = true)
        ∧ (filepathBase c.toNameStr = "Dockerfile"
            ∨ filepathBase c.toNameStr = "Containerfile")) := by
  obtain ⟨f, t⟩ := c
  cases f <;> cases t <;>
    simp [isNewShellScript, isNewOrModifiedContainerFile, Change.action] <;>
    constructor <;> intro h <;> simp_all <;> tauto

/-!
## The shell plugin's `LintAndValidate` (plugins/shell/shell.go)

The two external processes are oracles: an `ExecOutcome` says whether the
process ran and with which exit code, or could not be started at all (Go's
`exec` returns a non-`ExitError` error then, e.g. when the binary is
missing). `bash -n`'s result is a single flag: its `CombinedOutput` error
is nil iff the syntax check passed and bash could run.
-/

/-- Result of `exec.Command(...).CombinedOutput()` as `LintAndValidate`
inspects it: the process exited with a code (the error is nil iff the code
is 0 and an `exec.ExitError` otherwise), or it could not be started. -/
inductive ExecOutcome where
  | exited (code : Nat)
  | startFailed
deriving DecidableEq, Repr

/-- Oracle for one `LintAndValidate` call: the combined outputs of the two
tools and their outcomes. -/
structure LintEnv where
  bashOutput : String
  bashSyntaxOk : Bool
  shellcheckOutput : String
  shellcheck : ExecOutcome
deriving DecidableEq, Repr

/-- `ShellPlugin.LintAndValidate`: bash -n first (any error aborts with a
syntax-check failure), then shellcheck, whose exit code 1 is tolerated,
whose exit codes above 1 are fatal, and whose failure to start is an error.
Returns the accumulated output and the error, if any. -/
def lintAndValidate (env : LintEnv) : String × Option String :=
  let out := env.bashOutput
  if !env.bashSyntaxOk then (out, some "syntax check failed") else
  let out := out ++ "Syntax check passed.\n"
  let out := out ++ env.shellcheckOutput
  match env.shellcheck with
  | .exited code =>
    if code > 1 then (out, some ("shellcheck failed with exit code " ++ toString code))
    else (out ++ "Linting completed.\n", none)
  | .startFailed => (out, some "failed to run shellcheck")

/-- The error condition exactly as C9 words it: the syntax check fails, or
the linter's exit status exceeds the fatal threshold of 1. -/
def spec_lintErrorCondition (env : LintEnv) : Prop :=
  env.bashSyntaxOk = false ∨ ∃ code, env.shellcheck = .exited code ∧ 1 < code

/-- C9 counterexample: when bash -n succeeds but shellcheck cannot be run
at all (e.g. it is not installed), `LintAndValidate` returns an error even
though the syntax check passed and no exit status exceeded the threshold,
so the claimed "iff" fails. -/
theorem lintAndValidate_errors_without_fatal_exit :
    ((lintAndValidate ⟨"", true, "", .startFailed⟩).2.isSome = true)
      ∧ ¬ spec_lintErrorCondition ⟨"", true, "", .startFailed⟩ := by
  constructor
  · decide
  · rintro (h | ⟨code, h, _⟩) <;> simp_all

/-- C9 amended: `LintAndValidate` returns an error iff the syntax check
fails, or shellcheck cannot be run at all, or shellcheck's exit status
exceeds 1; exit status 1 (warnings only) is not an error. A bash -n
failure aborts immediately: the result is then the bash output alone with
the syntax-check error, before shellcheck runs. -/
theorem lintAndValidate_error_characterization (env : LintEnv) :
    ((lintAndValidate env).2.isSome = true ↔
      env.bashSyntaxOk = false ∨ env.shellcheck = .startFailed
        ∨ ∃ code, env.shellcheck = .exited code ∧ 1 < code)
    ∧ (env.bashSyntaxOk = false →
        lintAndValidate env = (env.bashOutput, some "syntax check failed")) := by
  obtain ⟨bo, ok, so, sc⟩ := env
  cases ok
  · simp [lintAndValidate]
  · cases sc with
    | exited code =>
      by_cases h : code > 1 <;> simp [lintAndValidate, h] <;> omega
    | startFailed => simp [lintAndValidate]

/-!
## The status store (internal/status/status.go)

`ScriptStatus` carries the four phase strings and a `time.Time`. The
`time.Time` is embedded as its wall-clock instant in nanoseconds (a `Nat`);
its JSON rendering (RFC3339Nano in Go) is embedded as the decimal rendering
of that instant — an injective string encoding parsed back exactly, which
is all the serialization claims depend on. A Go map is an association list
wrapped in `Option`: `none` is the nil map, on which lookup finds nothing
and assignment panics.
-/

/-- `ScriptStatus`: lint/test/run results, update instant, overall result. -/
structure ScriptStatus where
  lintStatus : String
  testStatus : String
  runStatus : String
  timestamp : Nat
  overallStatus : String
deriving DecidableEq, Repr

/-- `Status`: the `scripts` map; `none` models Go's nil map. -/
structure GoStatus where
  scripts : Option (List (String × ScriptStatus))
deriving DecidableEq, Repr

/-- Go map indexing `m[k]` (on a non-nil map). -/
def mapLookup (m : List (String × ScriptStatus)) (k : String) : Option ScriptStatus :=
  match m with
  | [] => none
  | (k', v) :: rest => if k' = k then some v else mapLookup rest k

/-- Go map assignment `m[k] = v` (on a non-nil map): replaces the existing
binding or adds a new one. -/
def mapInsert (m : List (String × ScriptStatus)) (k : String) (v : ScriptStatus) :
    List (String × ScriptStatus) :=
  match m with
  | [] => [(k, v)]
  | (k', v') :: rest => if k' = k then (k, v) :: rest else (k', v') :: mapInsert rest k v

/-- A Go computation that either panics or produces a value. -/
inductive GoPanicOr (α : Type) where
  | panicked
  | ok (val : α)
deriving DecidableEq, Repr

/-- `Status.UpdateScriptStatus`: replaces the script's entry with the given
four phase results and the current instant. Assigning into a nil `Scripts`
map panics. -/
def GoStatus.updateScriptStatus (s : GoStatus)
    (scriptName lintStatus testStatus runStatus overallStatus : String) (now : Nat) :
    GoPanicOr GoStatus :=
  match s.scripts with
  | none => .panicked
  | some m =>
    .ok ⟨some (mapInsert m scriptName
      ⟨lintStatus, testStatus, runStatus, now, overallStatus⟩)⟩

/-- Modelled from the spec: `GetScriptStatus`, the thread-safe read-only
lookup the current cmd/run.go calls, is not among the provided sources
(only its callers and the repository's documents mention it). Per spec
§4.1, `get(identifier)` is a read-only map lookup returning the entry and
whether it was found; a lookup on Go's nil map finds nothing. -/
def GoStatus.getScriptStatus (s : GoStatus) (k : String) : Option ScriptStatus :=
  match s.scripts with
  | none => none
  | some m => mapLookup m k

/-!
## The shell plugin's asset records (plugins/shell)

`Asset` is the per-script JSON sidecar. `LoadAsset` of an absent file
yields the zero asset with `Generation = 0`; `UpdateAssetAfterRun`
increments the generation and overwrites the remaining fields. The sidecar
file's content is modelled as an `Option Asset` (absent or stored). -/

/-- `Asset` from plugins/shell: per-script metadata. `Duration` wraps
`time.Duration` (nanoseconds, embedded as `Int`). -/
structure Asset where
  generation : Int
  lastRun : Nat
  lintPassed : Bool
  testsPassed : Bool
  event : String
  user : String
  runDuration : Int
  status : String
  commitHash : String
deriving DecidableEq, Repr

/-- The Go zero value of `Asset`. -/
def Asset.zero : Asset := ⟨0, 0, false, false, "", "", 0, "", ""⟩

/-- `ShellPlugin.LoadAsset`: the stored asset, or the zero asset with
`Generation = 0` when the sidecar file does not exist. -/
def loadAsset (stored : Option Asset) : Asset :=
  match stored with
  | none => Asset.zero
  | some a => a

/-- `ShellPlugin.UpdateAssetAfterRun`: loads the asset, increments its
generation, stamps the run, hardcodes `TestsPassed` to true, and overwrites
the event/user/duration/status/commit fields; the result is what
`SaveAsset` persists. -/
def updateAssetAfterRun (stored : Option Asset)
    (user commitHash event : String) (lintPassed : Bool)
    (runDuration : Int) (runStatus : String) (now : Nat) : Asset :=
  let asset := loadAsset stored
  { asset with
    generation := asset.generation + 1
    lastRun := now
    lintPassed := lintPassed
    testsPassed := true
    event := event
    user := user
    runDuration := runDuration
    status := runStatus
    commitHash := commitHash }

/-!
## JSON values and the snapshot encoding

`Json` is the value tree `encoding/json` works with. Numeric literals keep
their source text (the status snapshot contains no numbers, so their value
is never consulted). -/

/-- A JSON value; object members keep their textual order. -/
inductive Json where
  | null
  | bool (b : Bool)
  | num (lit : String)
  | str (s : String)
  | arr (elems : List Json)
  | obj (members : List (String × Json))

/-- The member keys of an object value (empty for other values). -/
def Json.objKeys : Json → List String
  | .obj ms => ms.map Prod.fst
  | _ => []

/-- The decimal digit character of `n % 10`. -/
def digitChar (n : Nat) : Char := Char.ofNat ('0'.toNat + n % 10)

/-- Decimal digits of `n`, most significant first, before `acc`; structural
on a fuel bound so that closed terms reduce (any `fuel > n` is enough). -/
def natDecimalAux (fuel n : Nat) (acc : List Char) : List Char :=
  match fuel with
  | 0 => acc
  | fuel + 1 =>
    if n < 10 then digitChar n :: acc
    else natDecimalAux fuel (n / 10) (digitChar n :: acc)

/-- Decimal digits of `n`, most significant first. -/
def natDecimalChars (n : Nat) : List Char := natDecimalAux (n + 1) n []

/-- Decimal rendering of `n` (the embedding of Go's timestamp rendering). -/
def natDecimal (n : Nat) : String := String.mk (natDecimalChars n)

example : natDecimal 1234 = "1234" := by decide

/-- The JSON encoding of one `ScriptStatus` entry: the five struct fields,
in declaration order, under their `json:` tag names. -/
def scriptStatusToJson (st : ScriptStatus) : Json :=
  .obj [("lint_status", .str st.lintStatus),
        ("test_status", .str st.testStatus),
        ("run_status", .str st.runStatus),
        ("timestamp", .str (natDecimal st.timestamp)),
        ("overall_status", .str st.overallStatus)]

/-- Entries sorted by key, as `encoding/json` serializes a Go map. -/
def sortByKey (m : List (String × ScriptStatus)) : List (String × ScriptStatus) :=
  m.mergeSort (fun a b => a.1 ≤ b.1)

/-- The JSON encoding of a `Status`: one `scripts` member, `null` for a nil
map, otherwise the entries sorted by key. -/
def statusToJson (s : GoStatus) : Json :=
  .obj [("scripts",
    match s.scripts with
    | none => .null
    | some m => .obj ((sortByKey m).map fun kv => (kv.1, scriptStatusToJson kv.2)))]

/-- C1: the status store keeps no generation counter. The first
`UpdateScriptStatus` for an identifier on a fresh store writes an entry
holding exactly the five fields lint_status, test_status, run_status,
timestamp and overall_status — its serialization has no "generation" key,
so the claimed generation-counter behavior cannot occur in this store.
(The repository's own documents describe a `generation` field and run.go
calls the enhanced store's `GetScriptStatus`; the shipped status.go
predates both.) -/
theorem updateScriptStatus_stores_no_generation :
    GoStatus.updateScriptStatus ⟨some []⟩ "deploy.sh" "pending" "skipped" "pending" "pending" 7
      = .ok ⟨some [("deploy.sh", ⟨"pending", "skipped", "pending", 7, "pending"⟩)]⟩
    ∧ (scriptStatusToJson ⟨"pending", "skipped", "pending", 7, "pending"⟩).objKeys
      = ["lint_status", "test_status", "run_status", "timestamp", "overall_status"]
    ∧ "generation" ∉ (scriptStatusToJson ⟨"pending", "skipped", "pending", 7, "pending"⟩).objKeys := by
  refine ⟨rfl, rfl, ?_⟩
  decide

/-!
## Go `filepath.Clean` and `Join` (Unix rules)

`Clean` is ported from Go's lexical algorithm: the output buffer is kept
reversed (`rout`), `dotdot` marks the prefix that ".." may not pop, and the
main loop consumes at least one input character per step (structural on a
fuel bound, so closed terms reduce; any fuel above the input length is
enough and the initial fuel is). -/

/-- The ".." backtracking step: pop the output buffer (reversed in `rout`)
through the previous component, never below `dotdot`. -/
def cleanBacktrack (dotdot : Nat) : List Char → List Char
  | [] => []
  | c :: rest => if c = '/' ∨ rest.length ≤ dotdot then rest else cleanBacktrack dotdot rest

/-- The main loop of `filepath.Clean`. -/
def cleanLoop (rooted : Bool) (fuel : Nat) (r rout : List Char) (dotdot : Nat) : List Char :=
  match fuel with
  | 0 => rout
  | fuel + 1 =>
    match r with
    | [] => rout
    | c :: rest =>
      if c = '/' then cleanLoop rooted fuel rest rout dotdot
      else if c = '.' ∧ (rest = [] ∨ rest.head? = some '/') then
        cleanLoop rooted fuel rest rout dotdot
      else if c = '.' ∧ rest.head? = some '.'
          ∧ (rest.tail = [] ∨ rest.tail.head? = some '/') then
        let rest2 := rest.tail
        if dotdot < rout.length then
          cleanLoop rooted fuel rest2 (cleanBacktrack dotdot rout) dotdot
        else if !rooted then
          let rout' := if 0 < rout.length then '.' :: '.' :: '/' :: rout else '.' :: '.' :: rout
          cleanLoop rooted fuel rest2 rout' rout'.length
        else cleanLoop rooted fuel rest2 rout dotdot
      else
        let rout' :=
          if (rooted ∧ rout.length ≠ 1) ∨ (!rooted ∧ rout.length ≠ 0) then '/' :: rout else rout
        let comp := (c :: rest).takeWhile (fun x => x ≠ '/')
        let r' := (c :: rest).dropWhile (fun x => x ≠ '/')
        cleanLoop rooted fuel r' (comp.reverse ++ rout') dotdot

/-- Go `filepath.Clean` (Unix): "" becomes ".", the path is processed
lexically, and an all-eliminated path becomes ".". -/
def pathClean (p : String) : String :=
  match p.data with
  | [] => "."
  | c :: rest =>
    let rooted := c = '/'
    let out :=
      if rooted then cleanLoop true (rest.length + 1) rest ['/'] 1
      else cleanLoop false (rest.length + 2) (c :: rest) [] 0
    if out = [] then "." else String.mk out.reverse

example : pathClean "repo" = "repo" := by decide
example : pathClean "a//b/./c/../d" = "a/b/d" := by decide
example : pathClean "../x" = "../x" := by decide
example : pathClean "/a/../../b" = "/b" := by decide
example : pathClean "." = "." := by decide
example : pathClean "a/b/.." = "a" := by decide

/-- Go `filepath.Join`: drops empty elements, joins with "/", then Cleans;
all-empty input gives "". -/
def filepathJoin (elems : List String) : String :=
  let ne := elems.filter (fun e => e ≠ "")
  if ne = [] then "" else pathClean (String.intercalate "/" ne)

example : filepathJoin ["repo", ".buenosaires", "status.json"]
    = "repo/.buenosaires/status.json" := by decide

/-- `getStatusFilePath` from internal/status/status.go: rejects a repo path
that `Clean` would change, as well as ".." and "."; otherwise the status
file lives at `<repo>/.buenosaires/status.json`. -/
def getStatusFilePath (repoPath : String) : Except String String :=
  let cleanRepoPath := pathClean repoPath
  if cleanRepoPath ≠ repoPath ∨ repoPath = ".." ∨ repoPath = "." then
    .error ("invalid repo path: " ++ repoPath)
  else .ok (filepathJoin [cleanRepoPath, ".buenosaires", "status.json"])

example : getStatusFilePath "repo" = .ok "repo/.buenosaires/status.json" := rfl
example : (getStatusFilePath ".").isOk = false := rfl

/-!
## JSON text: the `MarshalIndent` printer and the `Unmarshal` parser

`SaveStatus` writes `json.MarshalIndent(s, "", "  ")`; `LoadStatus` runs
`json.Unmarshal` over the file bytes. The printer mirrors Go's indentation
and string escaping (with its default HTML escaping); the parser is a
plain recursive-descent JSON reader, structural on a fuel bound that the
entry points set above the input length, so closed terms reduce. Key
matching is by exact name (Go also falls back to a case-insensitive match;
the snapshot's keys are exact, so no claim depends on the fallback). -/

/-- Lower-case hex digit for `n < 16`. -/
def hexDigitChar (n : Nat) : Char :=
  if n < 10 then Char.ofNat (n + '0'.toNat) else Char.ofNat (n - 10 + 'a'.toNat)

/-- The six-character `\\u00XX` escape for a code point below 256. -/
def u00Escape (n : Nat) : List Char :=
  '\\' :: 'u' :: '0' :: '0' :: hexDigitChar (n / 16) :: [hexDigitChar (n % 16)]

/-- One character as `encoding/json` (HTML-escaping encoder) emits it. -/
def escapeChar (c : Char) : List Char :=
  if c = '"' then ['\\', '"']
  else if c = '\\' then ['\\', '\\']
  else if c = '\n' then ['\\', 'n']
  else if c = '\r' then ['\\', 'r']
  else if c = '\t' then ['\\', 't']
  else if c.toNat < 0x20 ∨ c = '<' ∨ c = '>' ∨ c = '&' then u00Escape c.toNat
  else if c.toNat = 0x2028 ∨ c.toNat = 0x2029 then
    '\\' :: 'u' :: '2' :: '0' :: '2' :: [hexDigitChar (c.toNat % 16)]
  else [c]

/-- A quoted, escaped JSON string. -/
def printQuoted (s : String) : List Char := '"' :: (s.data.flatMap escapeChar ++ ['"'])

/-- The indentation Go writes at nesting depth `d` for indent "  ". -/
def indentPad (d : Nat) : List Char := List.replicate (2 * d) ' '

/-- The separator Go writes after a member or element: nothing for the
last one, a comma and newline otherwise. -/
def memberSep {α : Type} : List α → List Char
  | [] => []
  | _ => [',', '\n']

mutual

/-- A JSON value at nesting depth `d`, laid out as `MarshalIndent` does. -/
def printVal (d : Nat) : Json → List Char
  | .null => "null".data
  | .bool true => "true".data
  | .bool false => "false".data
  | .num lit => lit.data
  | .str s => printQuoted s
  | .arr [] => ['[', ']']
  | .arr (e :: es) =>
    '[' :: '\n' :: (printItems d (e :: es) ++ '\n' :: (indentPad d ++ [']']))
  | .obj [] => ['{', '}']
  | .obj (m :: ms) =>
    '{' :: '\n' :: (printMembers d (m :: ms) ++ '\n' :: (indentPad d ++ ['}']))

/-- Array elements, one per line at depth `d + 1`, comma-separated. -/
def printItems (d : Nat) : List Json → List Char
  | [] => []
  | e :: es =>
    indentPad (d + 1) ++ printVal (d + 1) e ++ memberSep es ++ printItems d es

/-- Object members, one per line at depth `d + 1`, comma-separated. -/
def printMembers (d : Nat) : List (String × Json) → List Char
  | [] => []
  | (k, v) :: ms =>
    indentPad (d + 1) ++ printQuoted k ++ ':' :: ' ' :: printVal (d + 1) v
      ++ memberSep ms ++ printMembers d ms

end

/-- A whole document as `MarshalIndent(v, "", "  ")` renders it. -/
def printJson (j : Json) : String := String.mk (printVal 0 j)

/-- JSON whitespace. -/
def isWsChar (c : Char) : Bool := (c = ' ') || (c = '\t') || (c = '\n') || (c = '\r')

/-- Skip leading JSON whitespace. -/
def dropWs : List Char → List Char
  | c :: cs => if isWsChar c then dropWs cs else c :: cs
  | [] => []

/-- ASCII decimal digit. -/
def isDigitChar (c : Char) : Bool := '0' ≤ c && c ≤ '9'

/-- The numeric value of a decimal digit character. -/
def digitVal (c : Char) : Nat := Char.toNat c - Char.toNat '0'

/-- Value of one hex digit, if it is one. -/
def hexDigitVal (c : Char) : Option Nat :=
  if '0' ≤ c ∧ c ≤ '9' then some (digitVal c)
  else if 'a' ≤ c ∧ c ≤ 'f' then some (c.toNat + 10 - 'a'.toNat)
  else if 'A' ≤ c ∧ c ≤ 'F' then some (c.toNat + 10 - 'A'.toNat)
  else none

/-- The single-character escapes of JSON. -/
def simpleUnescape (e : Char) : Option Char :=
  if e = '"' then some '"'
  else if e = '\\' then some '\\'
  else if e = '/' then some '/'
  else if e = 'b' then some (Char.ofNat 8)
  else if e = 'f' then some (Char.ofNat 12)
  else if e = 'n' then some '\n'
  else if e = 'r' then some '\r'
  else if e = 't' then some '\t'
  else none

/-- The body of a JSON string after the opening quote; `acc` is reversed. -/
def parseStringBody (acc : List Char) : List Char → Except String (String × List Char)
  | '"' :: r => .ok (String.mk acc.reverse, r)
  | '\\' :: 'u' :: a :: b :: c :: d :: r =>
    (match hexDigitVal a, hexDigitVal b, hexDigitVal c, hexDigitVal d with
     | some va, some vb, some vc, some vd =>
       parseStringBody (Char.ofNat (((va * 16 + vb) * 16 + vc) * 16 + vd) :: acc) r
     | _, _, _, _ => .error "invalid unicode escape")
  | '\\' :: e :: r =>
    (match simpleUnescape e with
     | some ch => parseStringBody (ch :: acc) r
     | none => .error "invalid escape")
  | c :: r => parseStringBody (c :: acc) r
  | [] => .error "unterminated string literal"

/-- The longest leading run of decimal digits. -/
def takeDigitRun : List Char → List Char × List Char
  | [] => ([], [])
  | c :: rest =>
    if isDigitChar c then
      let pr := takeDigitRun rest
      (c :: pr.1, pr.2)
    else ([], c :: rest)

/-- A JSON numeric literal, kept as its text. -/
def parseNumLit (cs : List Char) : Except String (String × List Char) :=
  let (sign, cs1) := match cs with | '-' :: r => (['-'], r) | _ => (([] : List Char), cs)
  let (intDs, cs2) := takeDigitRun cs1
  if intDs = [] then .error "invalid number" else
  let fracRes : Except String (List Char × List Char) :=
    match cs2 with
    | '.' :: r =>
      let (fs, r') := takeDigitRun r
      if fs = [] then .error "invalid number" else .ok ('.' :: fs, r')
    | _ => .ok ([], cs2)
  match fracRes with
  | .error e => .error e
  | .ok (frac, cs3) =>
    match cs3 with
    | 'e' :: r | 'E' :: r =>
      let (esign, r1) := match r with
        | '+' :: r2 => (['+'], r2)
        | '-' :: r2 => (['-'], r2)
        | _ => (([] : List Char), r)
      let (eds, r2) := takeDigitRun r1
      if eds = [] then .error "invalid number"
      else .ok (String.mk (sign ++ intDs ++ frac ++ 'e' :: (esign ++ eds)), r2)
    | _ => .ok (String.mk (sign ++ intDs ++ frac), cs3)

mutual

/-- One JSON value; fuel is structural and set above the input length. -/
def parseVal (fuel : Nat) (inp : List Char) : Except String (Json × List Char) :=
  match fuel with
  | 0 => .error "input exhausted the reader"
  | fuel + 1 =>
    match dropWs inp with
    | 'n' :: tl =>
      (match tl with
       | 'u' :: 'l' :: 'l' :: tl2 => .ok (Json.null, tl2)
       | _ => .error "no JSON value starts here")
    | 't' :: tl =>
      (match tl with
       | 'r' :: 'u' :: 'e' :: tl2 => .ok (Json.bool true, tl2)
       | _ => .error "no JSON value starts here")
    | 'f' :: tl =>
      (match tl with
       | 'a' :: 'l' :: 's' :: 'e' :: tl2 => .ok (Json.bool false, tl2)
       | _ => .error "no JSON value starts here")
    | '"' :: r =>
      (match parseStringBody [] r with
       | .ok (s, r1) => .ok (.str s, r1)
       | .error e => .error e)
    | '{' :: r =>
      (match dropWs r with
       | '}' :: r1 => .ok (.obj [], r1)
       | r1 =>
         match parseMembers fuel r1 with
         | .ok (ms, r2) => .ok (.obj ms, r2)
         | .error e => .error e)
    | '[' :: r =>
      (match dropWs r with
       | ']' :: r1 => .ok (.arr [], r1)
       | r1 =>
         match parseItems fuel r1 with
         | .ok (es, r2) => .ok (.arr es, r2)
         | .error e => .error e)
    | c :: rest =>
      if c = '-' ∨ isDigitChar c then
        match parseNumLit (c :: rest) with
        | .ok (lit, r1) => .ok (.num lit, r1)
        | .error e => .error e
      else .error "no JSON value starts here"
    | [] => .error "the document ended early"

/-- One or more `"key": value` members followed by the closing brace. -/
def parseMembers (fuel : Nat) (inp : List Char) :
    Except String (List (String × Json) × List Char) :=
  match fuel with
  | 0 => .error "input exhausted the reader"
  | fuel + 1 =>
    match dropWs inp with
    | '"' :: r =>
      (match parseStringBody [] r with
       | .error e => .error e
       | .ok (k, r1) =>
         match dropWs r1 with
         | ':' :: r2 =>
           (match parseVal fuel r2 with
            | .error e => .error e
            | .ok (v, r3) =>
              match dropWs r3 with
              | ',' :: r4 =>
                (match parseMembers fuel r4 with
                 | .ok (ms, r5) => .ok ((k, v) :: ms, r5)
                 | .error e => .error e)
              | '}' :: r4 => .ok ([(k, v)], r4)
              | _ => .error "expected comma or closing brace")
         | _ => .error "expected colon")
    | _ => .error "expected object key"

/-- One or more array elements followed by the closing bracket. -/
def parseItems (fuel : Nat) (inp : List Char) : Except String (List Json × List Char) :=
  match fuel with
  | 0 => .error "input exhausted the reader"
  | fuel + 1 =>
    match parseVal fuel inp with
    | .error e => .error e
    | .ok (v, r) =>
      match dropWs r with
      | ',' :: r1 =>
        (match parseItems fuel r1 with
         | .ok (vs, r2) => .ok (v :: vs, r2)
         | .error e => .error e)
      | ']' :: r1 => .ok ([v], r1)
      | _ => .error "expected comma or closing bracket"

end

/-- `json.Unmarshal`'s reader: one value, then only whitespace may remain. -/
def parseJsonText (s : String) : Except String Json :=
  match parseVal (s.data.length + 1) s.data with
  | .error e => .error e
  | .ok (j, r) => if dropWs r = [] then .ok j else .error "unexpected trailing data"

example : parseJsonText (String.mk ['{', '}']) = .ok (.obj []) := rfl
example : parseJsonText (String.mk ['{']) = .error "expected object key" := rfl
example : parseJsonText "null" = .ok .null := rfl
example :
    parseJsonText (printJson (.obj [("a", .str "b")])) = .ok (.obj [("a", .str "b")]) := rfl

/-!
## Decoding a parsed document into a `Status`

This mirrors `json.Unmarshal` on the two Go types: unknown keys are
ignored, later duplicate keys win (members are folded in order), `null`
leaves the current value in place, a JSON value of the wrong shape is an
error, and absent fields keep their zero values. The timestamp string is
decoded by the decimal reader that inverts `natDecimal` (the embedding of
Go's RFC3339Nano round-trip). -/

/-- Digits-only decimal reader; `none` on empty or non-digit input. -/
def parseDecimal (cs : List Char) : Option Nat :=
  if cs ≠ [] ∧ cs.all isDigitChar then some (cs.foldl (fun a c => a * 10 + digitVal c) 0)
  else none

/-- Unmarshalling a JSON value into a string field. -/
def decodeStrField (cur : String) : Json → Except String String
  | .str s => .ok s
  | .null => .ok cur
  | _ => .error "cannot unmarshal into a string field"

/-- Unmarshalling a JSON value into the time field. -/
def decodeTimeField (cur : Nat) : Json → Except String Nat
  | .str s =>
    (match parseDecimal s.data with
     | some n => .ok n
     | none => .error "cannot parse the timestamp")
  | .null => .ok cur
  | _ => .error "cannot unmarshal into a time field"

/-- The Go zero value of `ScriptStatus`. -/
def ScriptStatus.zero : ScriptStatus := ⟨"", "", "", 0, ""⟩

/-- One member applied to a `ScriptStatus` under its `json:` tag names;
unknown keys are ignored. -/
def applyScriptField (st : ScriptStatus) (k : String) (v : Json) :
    Except String ScriptStatus :=
  if k = "lint_status" then
    match decodeStrField st.lintStatus v with
    | .ok s => .ok { st with lintStatus := s }
    | .error e => .error e
  else if k = "test_status" then
    match decodeStrField st.testStatus v with
    | .ok s => .ok { st with testStatus := s }
    | .error e => .error e
  else if k = "run_status" then
    match decodeStrField st.runStatus v with
    | .ok s => .ok { st with runStatus := s }
    | .error e => .error e
  else if k = "timestamp" then
    match decodeTimeField st.timestamp v with
    | .ok n => .ok { st with timestamp := n }
    | .error e => .error e
  else if k = "overall_status" then
    match decodeStrField st.overallStatus v with
    | .ok s => .ok { st with overallStatus := s }
    | .error e => .error e
  else .ok st

/-- Members folded in order onto a `ScriptStatus`. -/
def decodeScriptFields (st : ScriptStatus) :
    List (String × Json) → Except String ScriptStatus
  | [] => .ok st
  | (k, v) :: ms =>
    match applyScriptField st k v with
    | .ok st' => decodeScriptFields st' ms
    | .error e => .error e

/-- Unmarshalling a JSON value into a `ScriptStatus`. -/
def decodeScriptStatus : Json → Except String ScriptStatus
  | .obj ms => decodeScriptFields ScriptStatus.zero ms
  | .null => .ok ScriptStatus.zero
  | _ => .error "cannot unmarshal into a ScriptStatus"

/-- Members folded in order into the scripts map (later keys win). -/
def decodeScriptsMap (m : List (String × ScriptStatus)) :
    List (String × Json) → Except String (List (String × ScriptStatus))
  | [] => .ok m
  | (k, v) :: rest =>
    match decodeScriptStatus v with
    | .ok st => decodeScriptsMap (mapInsert m k st) rest
    | .error e => .error e

/-- Unmarshalling a JSON value into the `Scripts` map: `null` leaves the
nil map nil, an object allocates the map and fills it. -/
def decodeScripts (cur : Option (List (String × ScriptStatus))) :
    Json → Except String (Option (List (String × ScriptStatus)))
  | .null => .ok cur
  | .obj ms =>
    (match decodeScriptsMap (cur.getD []) ms with
     | .ok m => .ok (some m)
     | .error e => .error e)
  | _ => .error "cannot unmarshal into the scripts map"

/-- Members folded in order onto a `Status`; only `scripts` is a field. -/
def decodeStatusFields (s : GoStatus) : List (String × Json) → Except String GoStatus
  | [] => .ok s
  | (k, v) :: ms =>
    if k = "scripts" then
      match decodeScripts s.scripts v with
      | .ok sc => decodeStatusFields ⟨sc⟩ ms
      | .error e => .error e
    else decodeStatusFields s ms

/-- Unmarshalling a document into a `Status`: a document without a
`scripts` member (such as the bare empty object) leaves `Scripts` nil. -/
def statusFromJson : Json → Except String GoStatus
  | .obj ms => decodeStatusFields ⟨none⟩ ms
  | .null => .ok ⟨none⟩
  | _ => .error "cannot unmarshal into a Status"

/-!
## `LoadStatus`, `SaveStatus` and the filesystem

A filesystem snapshot maps a path to file contents; `LoadStatus` folds Go's
stat + read into one lookup. `SaveStatus` is embedded twice: as the data it
writes and as the trace of filesystem operations it performs, which is what
the atomicity claim is about. -/

/-- A filesystem snapshot: path to contents, `none` when absent. -/
def FileSys : Type := String → Option String

/-- `LoadStatus`: an empty store when the snapshot file is absent, a parse
or unmarshal error otherwise surfaced, the decoded store on success. -/
def loadStatus (fs : FileSys) (repoPath : String) : Except String GoStatus :=
  match getStatusFilePath repoPath with
  | .error e => .error e
  | .ok statusFilePath =>
    match fs statusFilePath with
    | none => .ok ⟨some []⟩
    | some data =>
      match parseJsonText data with
      | .error e => .error e
      | .ok j => statusFromJson j

/-- The bytes `SaveStatus` writes: `MarshalIndent(s, "", "  ")`. -/
def saveStatusData (s : GoStatus) : String := printJson (statusToJson s)

/-- One filesystem operation of a persist sequence. -/
inductive FsOp where
  | statDir (p : String)
  | mkdirAll (p : String)
  | writeFile (p : String) (data : String)
  | rename (src dst : String)

/-- Go `filepath.Dir`: everything up to the last separator, Cleaned. -/
def filepathDir (p : String) : String :=
  pathClean (String.mk ((p.data.reverse.dropWhile (fun c => c ≠ '/')).reverse))

example : filepathDir "repo/.buenosaires/status.json" = "repo/.buenosaires" := by decide

/-- `SaveStatus` as the trace of filesystem operations it performs: stat
the `.buenosaires` directory, create it when absent, then write the
marshalled snapshot in place at the status path. -/
def saveStatusTrace (dirExists : Bool) (s : GoStatus) (repoPath : String) :
    Except String (List FsOp) :=
  match getStatusFilePath repoPath with
  | .error e => .error e
  | .ok sp =>
    let dir := filepathDir sp
    .ok ((if dirExists then [FsOp.statDir dir] else [FsOp.statDir dir, FsOp.mkdirAll dir])
      ++ [FsOp.writeFile sp (saveStatusData s)])

/-- The filesystem after a successful `SaveStatus` through `sp`. -/
def fsAfterSave (fs : FileSys) (sp : String) (s : GoStatus) : FileSys :=
  fun p => if p = sp then some (saveStatusData s) else fs p

/-- The snapshot states at `p` that a reader running concurrently with `op`
can observe mid-operation: an in-place write passes through every proper
prefix of the new data (POSIX truncate-then-write is not atomic); a rename
exposes none (POSIX rename is atomic); stat and mkdir touch no file data. -/
def opMidStates (op : FsOp) (p : String) : List String :=
  match op with
  | .writeFile q data =>
    if q = p then (List.range data.data.length).map (fun n => String.mk (data.data.take n))
    else []
  | _ => []

/-- C6's property as the spec words it: the persist sequence never exposes
a partially-written snapshot file at `p` to a concurrent reader. -/
def spec_persistAtomic (tr : List FsOp) (p : String) : Prop :=
  ∀ op ∈ tr, opMidStates op p = []

/-- The marshalled snapshot is never empty text (the document is always an
object with a `scripts` member). -/
lemma saveStatusData_ne_empty (s : GoStatus) : saveStatusData s ≠ "" := by
  obtain ⟨sc⟩ := s
  cases sc <;> simp [saveStatusData, printJson, statusToJson, printVal, String.ext_iff]

/-- An in-place write of nonempty data exposes a mid-write state. -/
lemma midStates_write_ne_nil (p data : String) (h : data ≠ "") :
    opMidStates (.writeFile p data) p ≠ [] := by
  simp only [opMidStates, if_pos rfl, ne_eq, List.map_eq_nil_iff, List.range_eq_nil]
  intro hlen
  exact h (by cases data with | mk l => cases l <;> simp_all)

/-- C6 counterexample: at the empty store and repo path "repo", the persist
sequence stats the directory and then writes the snapshot in place at its
final path, and that write exposes partially-written snapshot states to a
concurrent reader — the persist is not atomic. -/
theorem saveStatus_partial_write_observable :
    saveStatusTrace true ⟨some []⟩ "repo"
      = .ok [FsOp.statDir "repo/.buenosaires",
             FsOp.writeFile "repo/.buenosaires/status.json" (saveStatusData ⟨some []⟩)]
    ∧ ¬ spec_persistAtomic
        [FsOp.statDir "repo/.buenosaires",
         FsOp.writeFile "repo/.buenosaires/status.json" (saveStatusData ⟨some []⟩)]
        "repo/.buenosaires/status.json" := by
  refine ⟨rfl, fun h => ?_⟩
  exact midStates_write_ne_nil _ _ (saveStatusData_ne_empty _)
    (h (FsOp.writeFile "repo/.buenosaires/status.json" (saveStatusData ⟨some []⟩)) (by simp))

/-- C6 amended: `SaveStatus` persists with a single in-place `WriteFile` at
the status path (after a stat and, when needed, a mkdir); it performs no
write-to-temp-then-rename, and the sequence exposes partially-written
snapshot states to a concurrent reader. -/
theorem saveStatusTrace_shape (dirExists : Bool) (s : GoStatus) (rp sp : String)
    (h : getStatusFilePath rp = .ok sp) :
    saveStatusTrace dirExists s rp
      = .ok ((if dirExists then [FsOp.statDir (filepathDir sp)]
              else [FsOp.statDir (filepathDir sp), FsOp.mkdirAll (filepathDir sp)])
          ++ [FsOp.writeFile sp (saveStatusData s)])
    ∧ ∀ tr, saveStatusTrace dirExists s rp = .ok tr →
        (∀ src dst, FsOp.rename src dst ∉ tr) ∧ ¬ spec_persistAtomic tr sp := by
  have hshape : saveStatusTrace dirExists s rp
      = .ok ((if dirExists then [FsOp.statDir (filepathDir sp)]
              else [FsOp.statDir (filepathDir sp), FsOp.mkdirAll (filepathDir sp)])
          ++ [FsOp.writeFile sp (saveStatusData s)]) := by
    unfold saveStatusTrace
    rw [h]
  refine ⟨hshape, fun tr htr => ?_⟩
  rw [hshape] at htr
  obtain rfl : (if dirExists then [FsOp.statDir (filepathDir sp)]
      else [FsOp.statDir (filepathDir sp), FsOp.mkdirAll (filepathDir sp)])
      ++ [FsOp.writeFile sp (saveStatusData s)] = tr := by
    cases htr; rfl
  constructor
  · intro src dst hmem
    cases dirExists <;> simp_all
  · intro hatomic
    exact midStates_write_ne_nil _ _ (saveStatusData_ne_empty s)
      (hatomic (FsOp.writeFile sp (saveStatusData s)) (by cases dirExists <;> simp))

/-- Witness for `saveStatusTrace_shape` at the repo path "repo". -/
theorem saveStatusTrace_shape_witness :
    getStatusFilePath "repo" = .ok "repo/.buenosaires/status.json"
    ∧ saveStatusTrace false ⟨some []⟩ "repo"
      = .ok [FsOp.statDir "repo/.buenosaires", FsOp.mkdirAll "repo/.buenosaires",
             FsOp.writeFile "repo/.buenosaires/status.json" (saveStatusData ⟨some []⟩)] := by
  refine ⟨rfl, ?_⟩
  have h := (saveStatusTrace_shape false ⟨some []⟩ "repo" "repo/.buenosaires/status.json" rfl).1
  simpa using h

/-- C7: when the snapshot file is absent, `LoadStatus` returns the empty
store (a fresh non-nil map) and no error; when the file is present but its
text is malformed JSON, `LoadStatus` surfaces the parse error. -/
theorem loadStatus_absent_empty_malformed_error (fs : FileSys) (rp sp : String)
    (h : getStatusFilePath rp = .ok sp) :
    (fs sp = none → loadStatus fs rp = .ok ⟨some []⟩)
    ∧ (∀ text e, fs sp = some text → parseJsonText text = .error e →
        loadStatus fs rp = .error e) := by
  constructor
  · intro h1
    unfold loadStatus
    rw [h]
    dsimp only
    rw [h1]
  · intro text e h1 h2
    unfold loadStatus
    rw [h]
    dsimp only
    rw [h1]
    dsimp only
    rw [h2]

/-- Witness for `loadStatus_absent_empty_malformed_error`: the empty
filesystem loads an empty store at "repo", and a status file holding the
single character "\x7b" is malformed and surfaces a parse error. -/
theorem loadStatus_absent_empty_malformed_error_witness :
    loadStatus (fun _ => none) "repo" = .ok ⟨some []⟩
    ∧ loadStatus
        (fun p => if p = "repo/.buenosaires/status.json"
                  then some (String.mk ['{']) else none) "repo"
      = .error "expected object key" := by
  constructor
  · exact (loadStatus_absent_empty_malformed_error (fun _ => none) "repo"
      "repo/.buenosaires/status.json" rfl).1 rfl
  · exact (loadStatus_absent_empty_malformed_error _ "repo"
      "repo/.buenosaires/status.json" rfl).2 (String.mk ['{']) "expected object key" rfl rfl

/-- C10: a well-formed snapshot file holding the bare empty object has no
`scripts` member, so `LoadStatus` returns a store whose `Scripts` map is
nil, and every subsequent `UpdateScriptStatus` on that store panics with a
nil-map assignment instead of returning an error. -/
theorem loadStatus_empty_object_gives_nil_scripts (fs : FileSys) (rp sp : String)
    (h : getStatusFilePath rp = .ok sp)
    (hf : fs sp = some (String.mk ['{', '}'])) :
    loadStatus fs rp = .ok ⟨none⟩
    ∧ ∀ name lint test run overall now,
        GoStatus.updateScriptStatus ⟨none⟩ name lint test run overall now
          = GoPanicOr.panicked := by
  constructor
  · unfold loadStatus
    rw [h]
    dsimp only
    rw [hf]
    rfl
  · intro name lint test run overall now
    rfl

/-- Witness for `loadStatus_empty_object_gives_nil_scripts` at "repo" with
the file present and holding the empty object. -/
theorem loadStatus_empty_object_gives_nil_scripts_witness :
    loadStatus
        (fun p => if p = "repo/.buenosaires/status.json"
                  then some (String.mk ['{', '}']) else none) "repo"
      = .ok ⟨none⟩
    ∧ GoStatus.updateScriptStatus ⟨none⟩ "deploy.sh" "pending" "skipped" "pending" "pending" 7
      = GoPanicOr.panicked := by
  have h := loadStatus_empty_object_gives_nil_scripts
    (fun p => if p = "repo/.buenosaires/status.json"
              then some (String.mk ['{', '}']) else none) "repo"
    "repo/.buenosaires/status.json" rfl rfl
  exact ⟨h.1, h.2 "deploy.sh" "pending" "skipped" "pending" "pending" 7⟩

/-!
## Round-trip of the snapshot: the decimal timestamp

`parseDecimal` inverts `natDecimal`: the digits function is first freed of
its accumulator and its fuel, then inverted by strong induction. -/

lemma natDecimalAux_append (fuel : Nat) :
    ∀ n acc, natDecimalAux fuel n acc = natDecimalAux fuel n [] ++ acc := by
  induction fuel with
  | zero => intro n acc; simp [natDecimalAux]
  | succ fuel ih =>
    intro n acc
    by_cases h : n < 10
    · simp [natDecimalAux, h]
    · simp only [natDecimalAux, if_neg h]
      rw [ih (n / 10) (digitChar n :: acc), ih (n / 10) [digitChar n]]
      simp

lemma natDecimalAux_fuel (n : Nat) : ∀ f g, n < f → n < g →
    natDecimalAux f n [] = natDecimalAux g n [] := by
  induction n using Nat.strong_induction_on with
  | _ n ih =>
    intro f g hf hg
    obtain ⟨f, rfl⟩ : ∃ k, f = k + 1 := ⟨f - 1, by omega⟩
    obtain ⟨g, rfl⟩ : ∃ k, g = k + 1 := ⟨g - 1, by omega⟩
    by_cases h : n < 10
    · simp [natDecimalAux, h]
    · simp only [natDecimalAux, if_neg h]
      rw [natDecimalAux_append f, natDecimalAux_append g]
      rw [ih (n / 10) (by omega) f g (by omega) (by omega)]

/-- The defining recursion of `natDecimalChars`, fuel-free. -/
lemma natDecimalChars_unfold (n : Nat) :
    natDecimalChars n
      = if n < 10 then [digitChar n] else natDecimalChars (n / 10) ++ [digitChar n] := by
  by_cases h : n < 10
  · simp [natDecimalChars, natDecimalAux, h]
  · rw [if_neg h]
    rw [show natDecimalChars n = natDecimalAux n (n / 10) [digitChar n] from by
      simp [natDecimalChars, natDecimalAux, h]]
    rw [natDecimalAux_append n, natDecimalAux_fuel (n / 10) n (n / 10 + 1) (by omega) (by omega)]
    rfl

lemma digitChar_props (n : Nat) :
    isDigitChar (digitChar n) = true ∧ digitVal (digitChar n) = n % 10 := by
  have h : n % 10 < 10 := Nat.mod_lt _ (by omega)
  simp only [digitChar, digitVal]
  set m := n % 10 with hm
  interval_cases m <;> exact ⟨by decide, by decide⟩

lemma natDecimalChars_digits (n : Nat) : ∀ c ∈ natDecimalChars n, isDigitChar c = true := by
  induction n using Nat.strong_induction_on with
  | _ n ih =>
    rw [natDecimalChars_unfold]
    by_cases h : n < 10
    · simp only [if_pos h, List.mem_singleton]
      rintro c rfl
      exact (digitChar_props n).1
    · simp only [if_neg h, List.mem_append, List.mem_singleton]
      rintro c (hc | rfl)
      · exact ih (n / 10) (by omega) c hc
      · exact (digitChar_props n).1

lemma natDecimalChars_ne_nil (n : Nat) : natDecimalChars n ≠ [] := by
  rw [natDecimalChars_unfold]
  by_cases h : n < 10 <;> simp [h]

lemma natDecimalChars_foldl (n : Nat) :
    (natDecimalChars n).foldl (fun a c => a * 10 + digitVal c) 0 = n := by
  induction n using Nat.strong_induction_on with
  | _ n ih =>
    rw [natDecimalChars_unfold]
    by_cases h : n < 10
    · simp only [if_pos h, List.foldl_cons, List.foldl_nil, Nat.zero_mul, Nat.zero_add]
      rw [(digitChar_props n).2]
      omega
    · simp only [if_neg h, List.foldl_append, List.foldl_cons, List.foldl_nil]
      rw [ih (n / 10) (by omega), (digitChar_props n).2]
      omega

/-- The decimal reader inverts the decimal printer. -/
lemma parseDecimal_natDecimalChars (n : Nat) :
    parseDecimal (natDecimalChars n) = some n := by
  unfold parseDecimal
  rw [if_pos ⟨natDecimalChars_ne_nil n, by
    rw [List.all_eq_true]; exact natDecimalChars_digits n⟩]
  rw [natDecimalChars_foldl]

/-!
## Round-trip of the snapshot: strings

`parseStringBody` inverts `escapeChar`, one character at a time, and so
inverts `printQuoted`. -/

lemma hexDigitVal_hexDigitChar (d : Nat) (h : d < 16) :
    hexDigitVal (hexDigitChar d) = some d := by
  interval_cases d <;> decide

lemma parseStringBody_u00 (acc r : List Char) (m : Nat) (hm : m < 256) :
    parseStringBody acc
        ('\\' :: 'u' :: '0' :: '0' :: hexDigitChar (m / 16) :: hexDigitChar (m % 16) :: r)
      = parseStringBody (Char.ofNat m :: acc) r := by
  have h1 : hexDigitVal (hexDigitChar (m / 16)) = some (m / 16) :=
    hexDigitVal_hexDigitChar _ (by omega)
  have h2 : hexDigitVal (hexDigitChar (m % 16)) = some (m % 16) :=
    hexDigitVal_hexDigitChar _ (by omega)
  have h0 : hexDigitVal '0' = some 0 := rfl
  simp only [parseStringBody, h0, h1, h2]
  rw [show ((0 * 16 + 0) * 16 + m / 16) * 16 + m % 16 = m from by omega]

lemma parseStringBody_escapeChar (c : Char) (acc r : List Char) :
    parseStringBody acc (escapeChar c ++ r) = parseStringBody (c :: acc) r := by
  by_cases h1 : c = '"'
  · subst h1; rfl
  by_cases h2 : c = '\\'
  · subst h2; rfl
  by_cases h3 : c = '\n'
  · subst h3; rfl
  by_cases h4 : c = '\r'
  · subst h4; rfl
  by_cases h5 : c = '\t'
  · subst h5; rfl
  by_cases h6 : c.toNat < 0x20 ∨ c = '<' ∨ c = '>' ∨ c = '&'
  · have hlt : c.toNat < 256 := by
      rcases h6 with h | rfl | rfl | rfl
      · omega
      all_goals decide
    rw [show escapeChar c = u00Escape c.toNat from by
      simp [escapeChar, h1, h2, h3, h4, h5, h6]]
    rw [show u00Escape c.toNat
        = '\\' :: 'u' :: '0' :: '0' :: hexDigitChar (c.toNat / 16)
          :: [hexDigitChar (c.toNat % 16)] from rfl]
    rw [List.cons_append, List.cons_append, List.cons_append, List.cons_append,
      List.cons_append, List.cons_append, List.nil_append]
    rw [parseStringBody_u00 acc r c.toNat hlt, Char.ofNat_toNat]
  by_cases h7 : c.toNat = 0x2028 ∨ c.toNat = 0x2029
  · have hc : c = Char.ofNat c.toNat := (Char.ofNat_toNat c).symm
    rcases h7 with h7 | h7 <;> rw [h7] at hc <;> subst hc <;> rfl
  · rw [show escapeChar c = [c] from by simp [escapeChar, h1, h2, h3, h4, h5, h6, h7]]
    rw [List.cons_append, List.nil_append]
    rw [parseStringBody.eq_def]
    split
    · simp_all
    · simp_all
    · rename_i e r' heq
      rw [List.cons.injEq] at heq
      exact absurd heq.1 h2
    · rename_i x y z heq
      injection heq with hc hr
      subst hc
      subst hr
      rfl
    · simp_all

lemma parseStringBody_flat (cs : List Char) : ∀ (acc r : List Char),
    parseStringBody acc (cs.flatMap escapeChar ++ '"' :: r)
      = .ok (String.mk (acc.reverse ++ cs), r) := by
  induction cs with
  | nil => intro acc r; simp [parseStringBody]
  | cons c cs ih =>
    intro acc r
    rw [List.flatMap_cons, List.append_assoc, parseStringBody_escapeChar, ih]
    simp

lemma parseVal_printQuoted (s : String) (fuel : Nat) (r : List Char) :
    parseVal (fuel + 1) (printQuoted s ++ r) = .ok (.str s, r) := by
  obtain ⟨cs⟩ := s
  have hred : parseVal (fuel + 1) ('"' :: (cs.flatMap escapeChar ++ '"' :: r))
      = (match parseStringBody [] (cs.flatMap escapeChar ++ '"' :: r) with
         | .ok (s, r1) => Except.ok (Json.str s, r1)
         | .error e => .error e) := rfl
  rw [show printQuoted ⟨cs⟩ ++ r = '"' :: (cs.flatMap escapeChar ++ '"' :: r) from by
    simp [printQuoted]]
  rw [hred, parseStringBody_flat cs [] r]
  simp

/-!
## Round-trip of the snapshot: whitespace and parser-step lemmas -/

lemma dropWs_cons_ws {c : Char} (h : isWsChar c = true) (x : List Char) :
    dropWs (c :: x) = dropWs x := by simp [dropWs, h]

lemma dropWs_cons_not {c : Char} (h : isWsChar c = false) (x : List Char) :
    dropWs (c :: x) = c :: x := by simp [dropWs, h]

lemma dropWs_replicate_space (k : Nat) (x : List Char) :
    dropWs (List.replicate k ' ' ++ x) = dropWs x := by
  induction k with
  | zero => simp
  | succ k ih => simpa [dropWs, isWsChar] using ih

lemma dropWs_indentPad (d : Nat) (x : List Char) :
    dropWs (indentPad d ++ x) = dropWs x := dropWs_replicate_space _ x

/-- `parseVal` looks at its input only through `dropWs`. -/
lemma parseVal_ws {cs cs' : List Char} (fuel : Nat) (h : dropWs cs = dropWs cs') :
    parseVal fuel cs = parseVal fuel cs' := by
  cases fuel with
  | zero => rfl
  | succ f =>
    simp only [parseVal]
    rw [h]

/-- `parseMembers` looks at its input only through `dropWs`. -/
lemma parseMembers_ws {cs cs' : List Char} (fuel : Nat) (h : dropWs cs = dropWs cs') :
    parseMembers fuel cs = parseMembers fuel cs' := by
  cases fuel with
  | zero => rfl
  | succ f =>
    simp only [parseMembers]
    rw [h]

/-- One `parseMembers` step once the key's opening quote is in view. -/
lemma parseMembers_step (fuel : Nat) (cs tail : List Char) (h : dropWs cs = '"' :: tail) :
    parseMembers (fuel + 1) cs
      = (match parseStringBody [] tail with
         | .error e => .error e
         | .ok (k, r1) =>
           match dropWs r1 with
           | ':' :: r2 =>
             (match parseVal fuel r2 with
              | .error e => .error e
              | .ok (v, r3) =>
                match dropWs r3 with
                | ',' :: r4 =>
                  (match parseMembers fuel r4 with
                   | .ok (ms, r5) => .ok ((k, v) :: ms, r5)
                   | .error e => .error e)
                | '}' :: r4 => .ok ([(k, v)], r4)
                | _ => .error "expected comma or closing brace")
           | _ => .error "expected colon") := by
  simp only [parseMembers]
  rw [h]
  rfl

/-- One `parseVal` step once an object's opening brace is in view. -/
lemma parseVal_step_obj (fuel : Nat) (cs tail : List Char) (h : dropWs cs = '{' :: tail) :
    parseVal (fuel + 1) cs
      = (match dropWs tail with
         | '}' :: r1 => .ok (.obj [], r1)
         | r1 =>
           match parseMembers fuel r1 with
           | .ok (ms, r2) => .ok (.obj ms, r2)
           | .error e => .error e) := by
  simp only [parseVal]
  rw [h]
  rfl

/-- Parsing a rendered `null` value. -/
lemma parseVal_null (fuel : Nat) (r : List Char) :
    parseVal (fuel + 1) (printVal 0 Json.null ++ r) = .ok (.null, r) := rfl

/-!
## Round-trip of the snapshot: printed objects

First objects whose member values are all strings (a printed
`ScriptStatus`), then the object of printed entries (`scripts`). -/

lemma printQuoted_shape (k : String) (x : List Char) :
    printQuoted k ++ x = '"' :: (k.data.flatMap escapeChar ++ '"' :: x) := by
  simp [printQuoted]

/-- Parsing the printed members of a nonempty all-string object up to and
through the closing brace. -/
lemma parseMembers_strMembers :
    ∀ (ms : List (String × String)) (d fuel : Nat) (r : List Char), ms ≠ [] →
      ms.length + 1 ≤ fuel →
      parseMembers fuel
        (printMembers d (ms.map fun kv => (kv.1, Json.str kv.2))
          ++ '\n' :: (indentPad d ++ '}' :: r))
        = .ok (ms.map fun kv => (kv.1, Json.str kv.2), r) := by
  intro ms
  induction ms with
  | nil => intro d fuel r h; exact absurd rfl h
  | cons kv tl ih =>
    obtain ⟨k, v⟩ := kv
    intro d fuel r _ hfuel
    obtain ⟨f, rfl⟩ : ∃ k, fuel = k + 1 := ⟨fuel - 1, by omega⟩
    obtain ⟨f, rfl⟩ : ∃ k2, f = k2 + 1 := ⟨f - 1, by simp at hfuel; omega⟩
    cases tl with
    | nil =>
      rw [show printMembers d ([(k, v)].map fun kv => (kv.1, Json.str kv.2))
            ++ '\n' :: (indentPad d ++ '}' :: r)
          = indentPad (d + 1) ++ (printQuoted k
            ++ ':' :: ' ' :: (printQuoted v ++ '\n' :: (indentPad d ++ '}' :: r))) from by
        simp [printMembers, printVal, memberSep, List.append_assoc]]
      rw [parseMembers_step (f + 1) _
        (k.data.flatMap escapeChar
          ++ '"' :: (':' :: ' ' :: (printQuoted v ++ '\n' :: (indentPad d ++ '}' :: r))))
        (by rw [dropWs_indentPad, printQuoted_shape, dropWs_cons_not (by decide)])]
      rw [parseStringBody_flat]
      simp only [List.reverse_nil, List.nil_append]
      rw [show String.mk k.data = k from rfl]
      rw [dropWs_cons_not (by decide)]
      simp only []
      rw [parseVal_ws (f + 1) (dropWs_cons_ws (by decide) _)]
      rw [parseVal_printQuoted]
      simp only []
      rw [show dropWs ('\n' :: (indentPad d ++ '}' :: r)) = '}' :: r from by
        rw [dropWs_cons_ws (by decide), dropWs_indentPad, dropWs_cons_not (by decide)]]
      simp
    | cons kv2 tl2 =>
      rw [show printMembers d (((k, v) :: kv2 :: tl2).map fun kv => (kv.1, Json.str kv.2))
            ++ '\n' :: (indentPad d ++ '}' :: r)
          = indentPad (d + 1) ++ (printQuoted k
            ++ ':' :: ' ' :: (printQuoted v ++ ',' :: '\n'
              :: (printMembers d ((kv2 :: tl2).map fun kv => (kv.1, Json.str kv.2))
                ++ '\n' :: (indentPad d ++ '}' :: r)))) from by
        simp [printMembers, printVal, memberSep, List.append_assoc]]
      rw [parseMembers_step (f + 1) _
        (k.data.flatMap escapeChar
          ++ '"' :: (':' :: ' ' :: (printQuoted v ++ ',' :: '\n'
            :: (printMembers d ((kv2 :: tl2).map fun kv => (kv.1, Json.str kv.2))
              ++ '\n' :: (indentPad d ++ '}' :: r)))))
        (by rw [dropWs_indentPad, printQuoted_shape, dropWs_cons_not (by decide)])]
      rw [parseStringBody_flat]
      simp only [List.reverse_nil, List.nil_append]
      rw [show String.mk k.data = k from rfl]
      rw [dropWs_cons_not (by decide)]
      simp only []
      rw [parseVal_ws (f + 1) (dropWs_cons_ws (by decide) _)]
      rw [parseVal_printQuoted]
      simp only []
      rw [dropWs_cons_not (by decide)]
      simp only []
      rw [parseMembers_ws (f + 1) (dropWs_cons_ws (by decide) _)]
      rw [ih d (f + 1) r (by simp) (by simp at hfuel ⊢; omega)]
      simp

/-- The printed members of an object starting with `(k, v)` come into view,
after whitespace, as the key's opening quote and escaped characters. -/
lemma dropWs_printMembers_cons (d : Nat) (k : String) (v : Json)
    (ms : List (String × Json)) (x : List Char) :
    dropWs (printMembers d ((k, v) :: ms) ++ x)
      = '"' :: (k.data.flatMap escapeChar
          ++ '"' :: (':' :: ' ' :: (printVal (d + 1) v
            ++ (memberSep ms ++ (printMembers d ms ++ x))))) := by
  rw [show printMembers d ((k, v) :: ms) ++ x
      = indentPad (d + 1) ++ (printQuoted k ++ ':' :: ' ' :: (printVal (d + 1) v
          ++ (memberSep ms ++ (printMembers d ms ++ x)))) from by
    simp [printMembers, List.append_assoc]]
  rw [dropWs_indentPad, printQuoted_shape, dropWs_cons_not (by decide)]

/-- Parsing a printed nonempty object, given that its members parse. -/
lemma parseVal_obj_nonempty (fuel d : Nat) (k : String) (v : Json)
    (ms : List (String × Json)) (r : List Char)
    (hms : parseMembers fuel
        (printMembers d ((k, v) :: ms) ++ '\n' :: (indentPad d ++ '}' :: r))
        = .ok ((k, v) :: ms, r)) :
    parseVal (fuel + 1) (printVal d (.obj ((k, v) :: ms)) ++ r)
      = .ok (.obj ((k, v) :: ms), r) := by
  rw [show printVal d (Json.obj ((k, v) :: ms)) ++ r
      = '{' :: '\n' :: (printMembers d ((k, v) :: ms)
          ++ '\n' :: (indentPad d ++ '}' :: r)) from by
    simp [printVal, List.append_assoc]]
  rw [parseVal_step_obj fuel _
    ('\n' :: (printMembers d ((k, v) :: ms) ++ '\n' :: (indentPad d ++ '}' :: r)))
    (by rw [dropWs_cons_not (by decide)])]
  rw [show dropWs ('\n' :: (printMembers d ((k, v) :: ms)
      ++ '\n' :: (indentPad d ++ '}' :: r)))
      = '"' :: (k.data.flatMap escapeChar
          ++ '"' :: (':' :: ' ' :: (printVal (d + 1) v
            ++ (memberSep ms
              ++ (printMembers d ms ++ '\n' :: (indentPad d ++ '}' :: r)))))) from by
    rw [dropWs_cons_ws (by decide), dropWs_printMembers_cons]]
  split
  · rename_i r1 heq
    simp at heq
  · have hws : dropWs ('"' :: (k.data.flatMap escapeChar
        ++ '"' :: (':' :: ' ' :: (printVal (d + 1) v
          ++ (memberSep ms
            ++ (printMembers d ms ++ '\n' :: (indentPad d ++ '}' :: r)))))))
        = dropWs (printMembers d ((k, v) :: ms) ++ '\n' :: (indentPad d ++ '}' :: r)) := by
      rw [dropWs_cons_not (by decide), dropWs_printMembers_cons]
    rw [parseMembers_ws fuel hws]
    rw [hms]

/-- Parsing a printed all-string object (a printed `ScriptStatus`). -/
lemma parseVal_printedStrObj (ms : List (String × String)) (d fuel : Nat) (r : List Char)
    (h : ms.length + 2 ≤ fuel) :
    parseVal fuel (printVal d (.obj (ms.map fun kv => (kv.1, Json.str kv.2))) ++ r)
      = .ok (.obj (ms.map fun kv => (kv.1, Json.str kv.2)), r) := by
  obtain ⟨f, rfl⟩ : ∃ k, fuel = k + 1 := ⟨fuel - 1, by omega⟩
  cases ms with
  | nil =>
    simp only [List.map_nil]
    rw [show printVal d (Json.obj []) ++ r = '{' :: '}' :: r from by simp [printVal]]
    rw [parseVal_step_obj f _ ('}' :: r) (by rw [dropWs_cons_not (by decide)])]
    rw [dropWs_cons_not (by decide)]
    rfl
  | cons kv tl =>
    obtain ⟨k, v⟩ := kv
    rw [List.map_cons]
    exact parseVal_obj_nonempty f d k (Json.str v) (tl.map fun kv => (kv.1, Json.str kv.2)) r
      (by
        have hm := parseMembers_strMembers ((k, v) :: tl) d f r (by simp)
          (by simp at h ⊢; omega)
        simpa using hm)

/-- The five serialized fields of a `ScriptStatus`, as key/string pairs. -/
def scriptStatusStrFields (st : ScriptStatus) : List (String × String) :=
  [("lint_status", st.lintStatus), ("test_status", st.testStatus),
   ("run_status", st.runStatus), ("timestamp", natDecimal st.timestamp),
   ("overall_status", st.overallStatus)]

lemma scriptStatusToJson_strObj (st : ScriptStatus) :
    scriptStatusToJson st
      = .obj ((scriptStatusStrFields st).map fun kv => (kv.1, Json.str kv.2)) := rfl

/-- Parsing one printed `ScriptStatus` object. -/
lemma parseVal_printedEntry (st : ScriptStatus) (d fuel : Nat) (r : List Char)
    (h : 7 ≤ fuel) :
    parseVal fuel (printVal d (scriptStatusToJson st) ++ r)
      = .ok (scriptStatusToJson st, r) := by
  rw [scriptStatusToJson_strObj st]
  exact parseVal_printedStrObj _ d fuel r (by simp [scriptStatusStrFields]; omega)

/-- Parsing the printed members of a nonempty `scripts` object up to and
through the closing brace. -/
lemma parseMembers_entryMembers :
    ∀ (entries : List (String × ScriptStatus)) (d fuel : Nat) (r : List Char),
      entries ≠ [] → entries.length + 8 ≤ fuel →
      parseMembers fuel
        (printMembers d (entries.map fun kv => (kv.1, scriptStatusToJson kv.2))
          ++ '\n' :: (indentPad d ++ '}' :: r))
        = .ok (entries.map fun kv => (kv.1, scriptStatusToJson kv.2), r) := by
  intro entries
  induction entries with
  | nil => intro d fuel r h; exact absurd rfl h
  | cons kv tl ih =>
    obtain ⟨k, st⟩ := kv
    intro d fuel r _ hfuel
    obtain ⟨f, rfl⟩ : ∃ k, fuel = k + 1 := ⟨fuel - 1, by omega⟩
    have hf7 : 7 ≤ f := by simp at hfuel; omega
    obtain ⟨g, rfl⟩ : ∃ k2, f = k2 + 1 := ⟨f - 1, by omega⟩
    rw [List.map_cons]
    rw [show printMembers d ((k, scriptStatusToJson st)
          :: tl.map fun kv => (kv.1, scriptStatusToJson kv.2))
          ++ '\n' :: (indentPad d ++ '}' :: r)
        = indentPad (d + 1) ++ (printQuoted k
            ++ ':' :: ' ' :: (printVal (d + 1) (scriptStatusToJson st)
              ++ (memberSep (tl.map fun kv => (kv.1, scriptStatusToJson kv.2))
                ++ (printMembers d (tl.map fun kv => (kv.1, scriptStatusToJson kv.2))
                  ++ '\n' :: (indentPad d ++ '}' :: r))))) from by
      simp [printMembers, memberSep, List.append_assoc]]
    rw [parseMembers_step (g + 1) _
      (k.data.flatMap escapeChar
        ++ '"' :: (':' :: ' ' :: (printVal (d + 1) (scriptStatusToJson st)
          ++ (memberSep (tl.map fun kv => (kv.1, scriptStatusToJson kv.2))
            ++ (printMembers d (tl.map fun kv => (kv.1, scriptStatusToJson kv.2))
              ++ '\n' :: (indentPad d ++ '}' :: r))))))
      (by rw [dropWs_indentPad, printQuoted_shape, dropWs_cons_not (by decide)])]
    rw [parseStringBody_flat]
    simp only [List.reverse_nil, List.nil_append]
    rw [show String.mk k.data = k from rfl]
    rw [dropWs_cons_not (by decide)]
    simp only []
    rw [parseVal_ws (g + 1) (dropWs_cons_ws (by decide) _)]
    rw [parseVal_printedEntry st (d + 1) (g + 1) _ (by omega)]
    simp only []
    cases tl with
    | nil =>
      rw [show memberSep (([] : List (String × ScriptStatus)).map
            fun kv => (kv.1, scriptStatusToJson kv.2)) = [] from rfl]
      rw [show printMembers d (([] : List (String × ScriptStatus)).map
            fun kv => (kv.1, scriptStatusToJson kv.2)) = [] from rfl]
      simp only [List.nil_append]
      rw [show dropWs ('\n' :: (indentPad d ++ '}' :: r)) = '}' :: r from by
        rw [dropWs_cons_ws (by decide), dropWs_indentPad, dropWs_cons_not (by decide)]]
      simp
    | cons kv2 tl2 =>
      rw [show memberSep ((kv2 :: tl2).map fun kv => (kv.1, scriptStatusToJson kv.2))
          = [',', '\n'] from rfl]
      simp only [List.cons_append, List.nil_append]
      rw [dropWs_cons_not (by decide)]
      simp only []
      rw [parseMembers_ws (g + 1) (dropWs_cons_ws (by decide) _)]
      rw [ih d (g + 1) r (by simp) (by simp at hfuel ⊢; omega)]

/-- Parsing the printed `scripts` object. -/
lemma parseVal_printedScripts (entries : List (String × ScriptStatus)) (d fuel : Nat)
    (r : List Char) (h : entries.length + 9 ≤ fuel) :
    parseVal fuel
        (printVal d (.obj (entries.map fun kv => (kv.1, scriptStatusToJson kv.2))) ++ r)
      = .ok (.obj (entries.map fun kv => (kv.1, scriptStatusToJson kv.2)), r) := by
  obtain ⟨f, rfl⟩ : ∃ k, fuel = k + 1 := ⟨fuel - 1, by omega⟩
  cases entries with
  | nil =>
    simp only [List.map_nil]
    rw [show printVal d (Json.obj []) ++ r = '{' :: '}' :: r from by simp [printVal]]
    rw [parseVal_step_obj f _ ('}' :: r) (by rw [dropWs_cons_not (by decide)])]
    rw [dropWs_cons_not (by decide)]
    rfl
  | cons kv tl =>
    obtain ⟨k, st⟩ := kv
    rw [List.map_cons]
    exact parseVal_obj_nonempty f d k (scriptStatusToJson st)
      (tl.map fun kv => (kv.1, scriptStatusToJson kv.2)) r
      (by
        have hm := parseMembers_entryMembers ((k, st) :: tl) d f r (by simp)
          (by simp at h ⊢; omega)
        simpa using hm)

/-- Parsing a rendered `null` literal. -/
lemma parseVal_nullLit (fuel : Nat) (x : List Char) :
    parseVal (fuel + 1) ('n' :: 'u' :: 'l' :: 'l' :: x) = .ok (.null, x) := rfl

/-- The number of entries a store serializes. -/
def statusEntryCount (s : GoStatus) : Nat :=
  match s.scripts with
  | none => 0
  | some m => m.length

/-- Parsing the single `scripts` member at the top level, given its value
parses. -/
lemma parseMembers_scriptsMember (fuel : Nat) (inner : Json) (r : List Char)
    (hv : ∀ x, parseVal fuel (printVal 1 inner ++ x) = .ok (inner, x)) :
    parseMembers (fuel + 1)
      (printMembers 0 [("scripts", inner)] ++ '\n' :: (indentPad 0 ++ '}' :: r))
      = .ok ([("scripts", inner)], r) := by
  rw [show printMembers 0 [("scripts", inner)] ++ '\n' :: (indentPad 0 ++ '}' :: r)
      = indentPad 1 ++ (printQuoted "scripts" ++ ':' :: ' ' :: (printVal 1 inner
          ++ '\n' :: (indentPad 0 ++ '}' :: r))) from by
    simp [printMembers, memberSep, List.append_assoc]]
  rw [parseMembers_step fuel _
    ("scripts".data.flatMap escapeChar
      ++ '"' :: (':' :: ' ' :: (printVal 1 inner ++ '\n' :: (indentPad 0 ++ '}' :: r))))
    (by rw [dropWs_indentPad, printQuoted_shape, dropWs_cons_not (by decide)])]
  rw [parseStringBody_flat]
  simp only [List.reverse_nil, List.nil_append]
  rw [show String.mk "scripts".data = "scripts" from rfl]
  rw [dropWs_cons_not (by decide)]
  simp only []
  rw [parseVal_ws fuel (dropWs_cons_ws (by decide) _)]
  rw [hv ('\n' :: (indentPad 0 ++ '}' :: r))]
  simp only []
  rw [show dropWs ('\n' :: (indentPad 0 ++ '}' :: r)) = '}' :: r from by
    rw [dropWs_cons_ws (by decide), dropWs_indentPad, dropWs_cons_not (by decide)]]
  rfl

/-- Parsing a whole printed status snapshot. -/
lemma parseVal_printedStatus (s : GoStatus) (fuel : Nat) (r : List Char)
    (h : statusEntryCount s + 11 ≤ fuel) :
    parseVal fuel (printVal 0 (statusToJson s) ++ r) = .ok (statusToJson s, r) := by
  obtain ⟨fa, rfl⟩ : ∃ k, fuel = k + 1 := ⟨fuel - 1, by omega⟩
  obtain ⟨fb, rfl⟩ : ∃ k2, fa = k2 + 1 := ⟨fa - 1, by omega⟩
  obtain ⟨e, rfl⟩ : ∃ k3, fb = k3 + 1 := ⟨fb - 1, by omega⟩
  obtain ⟨sc⟩ := s
  cases sc with
  | none =>
    rw [show statusToJson ⟨none⟩ = .obj [("scripts", .null)] from rfl]
    exact parseVal_obj_nonempty (e + 1 + 1) 0 "scripts" .null [] r
      (parseMembers_scriptsMember (e + 1) .null r (fun x => parseVal_nullLit e x))
  | some m =>
    have hcount : statusEntryCount ⟨some m⟩ = m.length := rfl
    have hlen : (sortByKey m).length = m.length := (List.mergeSort_perm m _).length_eq
    rw [show statusToJson ⟨some m⟩
        = .obj [("scripts",
            .obj ((sortByKey m).map fun kv => (kv.1, scriptStatusToJson kv.2)))] from rfl]
    set inner : Json := .obj ((sortByKey m).map fun kv => (kv.1, scriptStatusToJson kv.2))
      with hinner
    have hv : ∀ x, parseVal (e + 1) (printVal 1 inner ++ x) = .ok (inner, x) := by
      intro x
      rw [hinner]
      apply parseVal_printedScripts
      rw [hcount] at h
      omega
    have hms := parseMembers_scriptsMember (e + 1) inner r hv
    exact parseVal_obj_nonempty (e + 1 + 1) 0 "scripts" inner [] r hms

lemma two_le_printQuoted_length (k : String) : 2 ≤ (printQuoted k).length := by
  simp [printQuoted]

lemma length_printMembers_ge (d : Nat) :
    ∀ ms : List (String × Json), ms.length ≤ (printMembers d ms).length := by
  intro ms
  induction ms with
  | nil => simp [printMembers]
  | cons kv tl ih =>
    obtain ⟨k, v⟩ := kv
    have h2 := two_le_printQuoted_length k
    simp only [printMembers, List.length_append, List.length_cons]
    omega

lemma length_printObj_ge (d : Nat) (ms : List (String × Json)) :
    ms.length ≤ (printVal d (.obj ms)).length := by
  cases ms with
  | nil => simp [printVal]
  | cons kv tl =>
    have h := length_printMembers_ge d (kv :: tl)
    simp only [printVal, List.length_cons, List.length_append]
    simp at h ⊢
    omega

/-- The parser entry point's fuel is always enough for a printed snapshot. -/
lemma statusFuel_le (s : GoStatus) :
    statusEntryCount s + 11 ≤ (printVal 0 (statusToJson s)).length + 1 := by
  obtain ⟨sc⟩ := s
  cases sc with
  | none => decide
  | some m =>
    have hlen : (sortByKey m).length = m.length := (List.mergeSort_perm m _).length_eq
    have hinner := length_printObj_ge 1 ((sortByKey m).map fun kv => (kv.1, scriptStatusToJson kv.2))
    rw [List.length_map, hlen] at hinner
    rw [show statusToJson ⟨some m⟩
        = .obj [("scripts",
            .obj ((sortByKey m).map fun kv => (kv.1, scriptStatusToJson kv.2)))] from rfl]
    rw [show printVal 0 (Json.obj [("scripts",
          .obj ((sortByKey m).map fun kv => (kv.1, scriptStatusToJson kv.2)))])
        = '{' :: '\n' :: ((indentPad 1 ++ printQuoted "scripts" ++ ':' :: ' '
            :: printVal 1 (.obj ((sortByKey m).map fun kv => (kv.1, scriptStatusToJson kv.2)))
              ++ [] ++ [])
          ++ '\n' :: (indentPad 0 ++ ['}'])) from rfl]
    have h9 : (printQuoted "scripts").length = 9 := rfl
    simp only [statusEntryCount, indentPad, List.length_append, List.length_cons,
      List.length_replicate, List.length_nil, h9]
    omega

/-- The snapshot `SaveStatus` writes parses back to the same document. -/
lemma parseJsonText_printJson_status (s : GoStatus) :
    parseJsonText (printJson (statusToJson s)) = .ok (statusToJson s) := by
  unfold parseJsonText
  rw [show (printJson (statusToJson s)).data = printVal 0 (statusToJson s) from rfl]
  have hb := statusFuel_le s
  have hp := parseVal_printedStatus s ((printVal 0 (statusToJson s)).length + 1) []
    (by omega)
  rw [List.append_nil] at hp
  rw [hp]
  rfl

/-!
## Round-trip of the snapshot: decoding -/

/-- Unmarshalling inverts the entry encoding. -/
lemma decodeScriptStatus_roundtrip (st : ScriptStatus) :
    decodeScriptStatus (scriptStatusToJson st) = .ok st := by
  obtain ⟨l, t, rn, ts, o⟩ := st
  simp only [scriptStatusToJson, decodeScriptStatus, decodeScriptFields, applyScriptField,
    decodeStrField, decodeTimeField, ScriptStatus.zero, natDecimal, if_pos, if_neg,
    String.reduceEq, reduceIte]
  rw [parseDecimal_natDecimalChars]

/-- Decoding the printed entries folds them into the map in order. -/
lemma decodeScriptsMap_entries :
    ∀ (entries : List (String × ScriptStatus)) (acc : List (String × ScriptStatus)),
      decodeScriptsMap acc (entries.map fun kv => (kv.1, scriptStatusToJson kv.2))
        = .ok (entries.foldl (fun m kv => mapInsert m kv.1 kv.2) acc) := by
  intro entries
  induction entries with
  | nil => intro acc; rfl
  | cons kv tl ih =>
    intro acc
    obtain ⟨k, st⟩ := kv
    rw [List.map_cons]
    rw [show decodeScriptsMap acc ((k, scriptStatusToJson st)
          :: tl.map fun kv => (kv.1, scriptStatusToJson kv.2))
        = (match decodeScriptStatus (scriptStatusToJson st) with
           | .ok st' => decodeScriptsMap (mapInsert acc k st')
              (tl.map fun kv => (kv.1, scriptStatusToJson kv.2))
           | .error e => .error e) from rfl]
    rw [decodeScriptStatus_roundtrip st]
    simp only []
    rw [ih (mapInsert acc k st), List.foldl_cons]

/-- On a key not yet bound, Go's map assignment appends. -/
lemma mapInsert_append (acc : List (String × ScriptStatus)) (k : String) (v : ScriptStatus)
    (h : k ∉ acc.map Prod.fst) : mapInsert acc k v = acc ++ [(k, v)] := by
  induction acc with
  | nil => rfl
  | cons kv tl ih =>
    obtain ⟨k', v'⟩ := kv
    simp only [List.map_cons, List.mem_cons, not_or] at h
    obtain ⟨hne, htl⟩ := h
    have hne' : ¬ (k' = k) := fun hh => hne hh.symm
    simp only [mapInsert, if_neg hne']
    rw [ih htl, List.cons_append]

/-- Folding key-distinct entries into an accumulator appends them. -/
lemma foldl_mapInsert (l : List (String × ScriptStatus)) :
    ∀ acc, (∀ k ∈ l.map Prod.fst, k ∉ acc.map Prod.fst) → (l.map Prod.fst).Nodup →
      l.foldl (fun m kv => mapInsert m kv.1 kv.2) acc = acc ++ l := by
  induction l with
  | nil => intro acc _ _; simp
  | cons kv tl ih =>
    intro acc hdisj hnd
    obtain ⟨k, v⟩ := kv
    simp only [List.map_cons, List.nodup_cons] at hnd
    obtain ⟨hknotl, hndtl⟩ := hnd
    simp only [List.foldl_cons]
    rw [mapInsert_append acc k v (hdisj k (by simp))]
    rw [ih (acc ++ [(k, v)]) ?_ hndtl]
    · simp
    · intro k' hk'
      simp only [List.map_append, List.mem_append, List.map_cons, List.map_nil,
        List.mem_singleton, not_or]
      constructor
      · exact hdisj k' (by simp [hk'])
      · intro hkk
        exact hknotl (hkk ▸ hk')

lemma sortByKey_perm (m : List (String × ScriptStatus)) : (sortByKey m).Perm m :=
  List.mergeSort_perm m _

lemma sortByKey_keys_nodup (m : List (String × ScriptStatus))
    (hnd : (m.map Prod.fst).Nodup) : ((sortByKey m).map Prod.fst).Nodup :=
  (((sortByKey_perm m).map Prod.fst).nodup_iff).mpr hnd

/-- On maps without duplicate keys, lookup is permutation-invariant. -/
lemma mapLookup_perm {m₁ m₂ : List (String × ScriptStatus)} (h : m₁.Perm m₂)
    (nd : (m₁.map Prod.fst).Nodup) (k : String) : mapLookup m₁ k = mapLookup m₂ k := by
  induction h with
  | nil => rfl
  | cons x h ih =>
    obtain ⟨a, b⟩ := x
    simp only [List.map_cons, List.nodup_cons] at nd
    by_cases ha : a = k <;> simp [mapLookup, ha, ih nd.2]
  | swap x y l =>
    obtain ⟨a, b⟩ := x
    obtain ⟨c, e⟩ := y
    simp only [List.map_cons, List.nodup_cons, List.mem_cons, not_or] at nd
    have hac : ¬ (c = k ∧ a = k) := by
      rintro ⟨rfl, rfl⟩
      exact nd.1.1 rfl
    by_cases hc : c = k <;> by_cases ha : a = k <;> simp [mapLookup, hc, ha] <;> tauto
  | trans h1 h2 ih1 ih2 =>
    have ndmid := ((h1.map Prod.fst).nodup_iff).mp nd
    exact (ih1 nd).trans (ih2 ndmid)

/-- Unmarshalling inverts the snapshot encoding, up to the key sort. -/
lemma statusFromJson_statusToJson_some (m : List (String × ScriptStatus))
    (hnd : (m.map Prod.fst).Nodup) :
    statusFromJson (statusToJson ⟨some m⟩) = .ok ⟨some (sortByKey m)⟩ := by
  rw [show statusToJson ⟨some m⟩
      = .obj [("scripts",
          .obj ((sortByKey m).map fun kv => (kv.1, scriptStatusToJson kv.2)))] from rfl]
  have hdm : decodeScriptsMap []
      ((sortByKey m).map fun kv => (kv.1, scriptStatusToJson kv.2)) = .ok (sortByKey m) := by
    rw [decodeScriptsMap_entries (sortByKey m) [],
      foldl_mapInsert (sortByKey m) [] (by simp) (sortByKey_keys_nodup m hnd),
      List.nil_append]
  simp only [statusFromJson, decodeStatusFields, decodeScripts, Option.getD]
  rw [hdm]
  simp

/-- C8: persisting a store and reloading it yields an identical mapping:
`LoadStatus` after `SaveStatus` returns the entries sorted by key — a
permutation of the original entries with the same keys — and every key
looks up the same `ScriptStatus` (all five fields, the timestamp at its
serialized precision) as in the saved store. -/
theorem saveStatus_loadStatus_roundtrip (fs : FileSys) (rp sp : String)
    (m : List (String × ScriptStatus))
    (h : getStatusFilePath rp = .ok sp)
    (hnd : (m.map Prod.fst).Nodup) :
    loadStatus (fsAfterSave fs sp ⟨some m⟩) rp = .ok ⟨some (sortByKey m)⟩
    ∧ (sortByKey m).Perm m
    ∧ ((sortByKey m).map Prod.fst).Perm (m.map Prod.fst)
    ∧ ∀ k, mapLookup (sortByKey m) k = mapLookup m k := by
  refine ⟨?_, sortByKey_perm m, (sortByKey_perm m).map Prod.fst,
    fun k => mapLookup_perm (sortByKey_perm m) (sortByKey_keys_nodup m hnd) k⟩
  unfold loadStatus
  rw [h]
  dsimp only
  rw [show fsAfterSave fs sp ⟨some m⟩ sp = some (saveStatusData ⟨some m⟩) from by
    simp [fsAfterSave]]
  dsimp only
  rw [show saveStatusData ⟨some m⟩ = printJson (statusToJson ⟨some m⟩) from rfl]
  rw [parseJsonText_printJson_status ⟨some m⟩]
  dsimp only
  rw [statusFromJson_statusToJson_some m hnd]

/-- Witness for `saveStatus_loadStatus_roundtrip`: a two-entry store saved
at "repo" reloads as the same mapping. -/
theorem saveStatus_loadStatus_roundtrip_witness :
    loadStatus
        (fsAfterSave (fun _ => none) "repo/.buenosaires/status.json"
          ⟨some [("b.sh", ⟨"success", "skipped", "success", 5, "success"⟩),
                 ("a.sh", ⟨"failure", "skipped", "pending", 9, "failure"⟩)]⟩) "repo"
      = .ok ⟨some (sortByKey
          [("b.sh", ⟨"success", "skipped", "success", 5, "success"⟩),
           ("a.sh", ⟨"failure", "skipped", "pending", 9, "failure"⟩)])⟩
    ∧ ∀ k, mapLookup (sortByKey
          [("b.sh", ⟨"success", "skipped", "success", 5, "success"⟩),
           ("a.sh", ⟨"failure", "skipped", "pending", 9, "failure"⟩)]) k
        = mapLookup
          [("b.sh", ⟨"success", "skipped", "success", 5, "success"⟩),
           ("a.sh", ⟨"failure", "skipped", "pending", 9, "failure"⟩)] k := by
  have h := saveStatus_loadStatus_roundtrip (fun _ => none) "repo"
    "repo/.buenosaires/status.json"
    [("b.sh", ⟨"success", "skipped", "success", 5, "success"⟩),
     ("a.sh", ⟨"failure", "skipped", "pending", 9, "failure"⟩)] rfl (by decide)
  exact ⟨h.1, h.2.2.2⟩

/-!
## The monitoring loop's per-change pipeline (cmd/run.go)

The body of the `for _, change := range changes` loop is embedded as a
function of the change, the store, and an oracle for everything external:
the tree read, the temp file, the two plugins, and the clock. The result
is the new store and the trace of observable actions, or a Go panic
(`UpdateScriptStatus` on a nil map). A `continue` in the shell block skips
the docker block of the same iteration; that is the `continued` flag. -/

/-- `MaxScriptSize` from cmd/run.go: 10 MiB. -/
def MaxScriptSize : Nat := 10 * 1024 * 1024

/-- `repoConfig.Docker` fields the loop reads. -/
structure DockerCfg where
  enabled : Bool
  autoRun : Bool
  defaultTag : String
  imagePrefix : String

/-- The repo-config fields the loop reads. -/
structure RepoCfg where
  allowSudo : Bool
  logDir : String
  docker : DockerCfg

/-- The global-config fields the loop reads; `pluginsDocker` is
`globalConfig.Plugins["docker"]`. -/
structure GlobalCfg where
  logDir : String
  pluginsDocker : Bool

/-- Oracle for one shell-script processing attempt. -/
structure ShellOracle where
  fileContent : Option String
  tmpName : String
  tmpCreateOk : Bool
  tmpWriteOk : Bool
  tmpCloseOk : Bool
  lintOutput : String
  lintErr : Bool
  execOutput : String
  execErr : Bool

/-- Oracle for one container-file processing attempt. -/
structure DockerOracle where
  fileInTree : Bool
  lintOutput : String
  lintErr : Bool
  execOutput : String
  execErr : Bool

/-- The oracle for one loop iteration; `now` is the clock. -/
structure ChangeEnv where
  now : Nat
  shell : ShellOracle
  docker : DockerOracle

/-- One observable action of the loop body. -/
inductive Ev where
  | updateStatus (key lint test run overall : String)
  | saveStatus
  | createTemp (name : String)
  | writeTemp (name : String)
  | removeTemp (name : String)
  | shellLint (path : String)
  | shellRun (path : String) (useSudo : Bool)
  | dockerLint (path : String)
  | dockerBuildRun (imageName imageTag : String) (autoRun : Bool)
  | writeLog (file content : String)

/-- Sequencing under a possible Go panic. -/
def bindPanic {α β : Type} : GoPanicOr α → (α → GoPanicOr β) → GoPanicOr β
  | .panicked, _ => .panicked
  | .ok a, f => f a

/-- The log directory resolution: the repo config's, or the global one. -/
def resolveLogDir (g : GlobalCfg) (rc : RepoCfg) : String :=
  if rc.logDir = "" then g.logDir else rc.logDir

/-- The shell block after the skip check. -/
def shellBlockBody (g : GlobalCfg) (rc : RepoCfg) (env : ShellOracle) (now : Nat)
    (st : GoStatus) (scriptName : String) : GoPanicOr (GoStatus × List Ev × Bool) :=
  bindPanic (st.updateScriptStatus scriptName "pending" "skipped" "pending" "pending" now)
    fun st1 =>
  let evs := [Ev.updateStatus scriptName "pending" "skipped" "pending" "pending",
              Ev.saveStatus]
  match env.fileContent with
  | none => .ok (st1, evs, true)
  | some content =>
    if goLen content > MaxScriptSize then
      bindPanic (st1.updateScriptStatus scriptName "failure" "skipped" "pending" "failure" now)
        fun st2 =>
      .ok (st2, evs ++ [Ev.updateStatus scriptName "failure" "skipped" "pending" "failure",
                        Ev.saveStatus], true)
    else if !env.tmpCreateOk then .ok (st1, evs, true)
    else
      let evs := evs ++ [Ev.createTemp env.tmpName]
      if !env.tmpWriteOk then .ok (st1, evs ++ [Ev.removeTemp env.tmpName], true)
      else
        let evs := evs ++ [Ev.writeTemp env.tmpName]
        if !env.tmpCloseOk then .ok (st1, evs ++ [Ev.removeTemp env.tmpName], true)
        else
          let evs := evs ++ [Ev.shellLint env.tmpName]
          if env.lintErr then
            bindPanic
              (st1.updateScriptStatus scriptName "failure" "skipped" "pending" "failure" now)
              fun st2 =>
            .ok (st2, evs
              ++ [Ev.updateStatus scriptName "failure" "skipped" "pending" "failure",
                  Ev.saveStatus, Ev.removeTemp env.tmpName], true)
          else
            bindPanic
              (st1.updateScriptStatus scriptName "success" "skipped" "pending" "pending" now)
              fun st2 =>
            let evs := evs
              ++ [Ev.updateStatus scriptName "success" "skipped" "pending" "pending",
                  Ev.saveStatus, Ev.shellRun env.tmpName rc.allowSudo]
            bindPanic
              (if env.execErr then
                st2.updateScriptStatus scriptName "success" "skipped" "failure" "failure" now
              else
                st2.updateScriptStatus scriptName "success" "skipped" "success" "success" now)
              fun st3 =>
            let evs := evs
              ++ [(if env.execErr then
                    Ev.updateStatus scriptName "success" "skipped" "failure" "failure"
                  else
                    Ev.updateStatus scriptName "success" "skipped" "success" "success"),
                  Ev.saveStatus, Ev.removeTemp env.tmpName]
            let logDir := resolveLogDir g rc
            if logDir ≠ "" then
              .ok (st3, evs ++ [Ev.writeLog
                (filepathJoin [logDir, filepathBase scriptName ++ ".log"])
                ("--- LINT OUTPUT ---\n" ++ env.lintOutput
                  ++ "\n--- EXECUTION OUTPUT ---\n" ++ env.execOutput)], false)
            else .ok (st3, evs, false)

/-- The shell block of the loop body (run only when `isNewShellScript`):
skip already-successful scripts, record pending, read the blob, enforce
the size cap, materialize a temp file, validate, execute, clean up, write
the log. The returned flag is true when the block ended in `continue`. -/
def shellBlock (g : GlobalCfg) (rc : RepoCfg) (env : ShellOracle) (now : Nat)
    (st : GoStatus) (c : Change) : GoPanicOr (GoStatus × List Ev × Bool) :=
  let scriptName := c.toNameStr
  match st.getScriptStatus scriptName with
  | some s =>
    if s.overallStatus = "success" then .ok (st, [], true)
    else shellBlockBody g rc env now st scriptName
  | none => shellBlockBody g rc env now st scriptName

/-- The docker block after the skip check. -/
def dockerBlockBody (g : GlobalCfg) (rc : RepoCfg) (env : DockerOracle) (now : Nat)
    (st : GoStatus) (containerPath containerName statusKey : String) :
    GoPanicOr (GoStatus × List Ev) :=
  bindPanic (st.updateScriptStatus statusKey "pending" "skipped" "pending" "pending" now)
    fun st1 =>
  let evs := [Ev.updateStatus statusKey "pending" "skipped" "pending" "pending",
              Ev.saveStatus]
  if !env.fileInTree then .ok (st1, evs)
  else
    let fullContainerPath := filepathJoin [".", containerPath]
    let evs := evs ++ [Ev.dockerLint fullContainerPath]
    if env.lintErr then
      bindPanic (st1.updateScriptStatus statusKey "failure" "skipped" "pending" "failure" now)
        fun st2 =>
      .ok (st2, evs ++ [Ev.updateStatus statusKey "failure" "skipped" "pending" "failure",
                        Ev.saveStatus])
    else
      bindPanic (st1.updateScriptStatus statusKey "success" "skipped" "pending" "pending" now)
        fun st2 =>
      let evs := evs ++ [Ev.updateStatus statusKey "success" "skipped" "pending" "pending",
                         Ev.saveStatus]
      let imageTag := if rc.docker.defaultTag = "" then "latest" else rc.docker.defaultTag
      let imageName := if rc.docker.imagePrefix = "" then containerName
                       else rc.docker.imagePrefix ++ containerName
      let evs := evs ++ [Ev.dockerBuildRun imageName imageTag rc.docker.autoRun]
      bindPanic
        (if env.execErr then
          st2.updateScriptStatus statusKey "success" "skipped" "failure" "failure" now
        else
          st2.updateScriptStatus statusKey "success" "skipped" "success" "success" now)
        fun st3 =>
      let evs := evs
        ++ [(if env.execErr then
              Ev.updateStatus statusKey "success" "skipped" "failure" "failure"
            else
              Ev.updateStatus statusKey "success" "skipped" "success" "success"),
            Ev.saveStatus]
      let logDir := resolveLogDir g rc
      if logDir ≠ "" then
        .ok (st3, evs ++ [Ev.writeLog
          (filepathJoin [logDir, containerName ++ "-container.log"])
          ("--- LINT OUTPUT ---\n" ++ env.lintOutput
            ++ "\n--- BUILD/RUN OUTPUT ---\n" ++ env.execOutput)])
      else .ok (st3, evs)

/-- The docker block of the loop body. -/
def dockerBlock (g : GlobalCfg) (rc : RepoCfg) (env : DockerOracle) (now : Nat)
    (st : GoStatus) (c : Change) : GoPanicOr (GoStatus × List Ev) :=
  if rc.docker.enabled ∧ g.pluginsDocker then
    if isNewOrModifiedContainerFile c then
      let containerPath := c.toNameStr
      let containerName := filepathBase (filepathDir containerPath)
      let statusKey := "container:" ++ containerName
      match st.getScriptStatus statusKey with
      | some s =>
        if s.overallStatus = "success" then .ok (st, [])
        else dockerBlockBody g rc env now st containerPath containerName statusKey
      | none => dockerBlockBody g rc env now st containerPath containerName statusKey
    else .ok (st, [])
  else .ok (st, [])

/-- One iteration of the change loop: the shell block when the change is a
new shell script (its `continue` skips the docker block), then the docker
block. -/
def processChange (g : GlobalCfg) (rc : RepoCfg) (env : ChangeEnv)
    (st : GoStatus) (c : Change) : GoPanicOr (GoStatus × List Ev) :=
  if isNewShellScript c then
    bindPanic (shellBlock g rc env.shell env.now st c) fun res =>
      match res with
      | (st1, evs, true) => .ok (st1, evs)
      | (st1, evs, false) =>
        bindPanic (dockerBlock g rc env.docker env.now st1 c) fun res2 =>
          .ok (res2.1, evs ++ res2.2)
  else dockerBlock g rc env.docker env.now st c

/-- The loop over one commit's change set, each change with its oracle. -/
def processChanges (g : GlobalCfg) (rc : RepoCfg) :
    GoStatus → List (Change × ChangeEnv) → GoPanicOr (GoStatus × List Ev)
  | st, [] => .ok (st, [])
  | st, (c, env) :: rest =>
    bindPanic (processChange g rc env st c) fun res =>
      bindPanic (processChanges g rc res.1 rest) fun res2 =>
        .ok (res2.1, res.2 ++ res2.2)

/-- Go-map lookup after assignment finds the assigned value. -/
lemma mapLookup_mapInsert_self (m : List (String × ScriptStatus)) (k : String)
    (v : ScriptStatus) : mapLookup (mapInsert m k v) k = some v := by
  induction m with
  | nil => simp [mapInsert, mapLookup]
  | cons kv tl ih =>
    obtain ⟨k', v'⟩ := kv
    by_cases h : k' = k <;> simp [mapInsert, mapLookup, h, ih]

/-- C2: an artifact whose recorded entry has `overall_status = "success"`
is skipped by the loop before any status update or plugin call: the
iteration leaves the store unchanged and performs no observable action.
This covers both a shell script (keyed by its path) and a container file
(keyed by `container:<name>`). -/
theorem successfulArtifact_skipped (g : GlobalCfg) (rc : RepoCfg) (env : ChangeEnv)
    (st : GoStatus) (c : Change) (s : ScriptStatus)
    (hsucc : s.overallStatus = "success")
    (hcase : (isNewShellScript c = true ∧ st.getScriptStatus c.toNameStr = some s)
      ∨ (isNewShellScript c = false ∧ isNewOrModifiedContainerFile c = true
          ∧ st.getScriptStatus ("container:" ++ filepathBase (filepathDir c.toNameStr))
            = some s)) :
    processChange g rc env st c = .ok (st, []) := by
  rcases hcase with ⟨hsh, hlk⟩ | ⟨hsh, hcf, hlk⟩
  · simp only [processChange, hsh, if_pos, shellBlock, hlk, hsucc, if_true, bindPanic]
  · simp only [processChange, hsh, Bool.false_eq_true, if_false, dockerBlock]
    by_cases hd : rc.docker.enabled = true ∧ g.pluginsDocker = true
    · simp only [if_pos hd, hcf, if_true, hlk, hsucc]
    · simp only [if_neg hd]

/-- Witness for `successfulArtifact_skipped`: an already-successful
`a.sh` reappearing as an insert is skipped. -/
theorem successfulArtifact_skipped_witness :
    processChange ⟨"", true⟩ ⟨false, "", ⟨true, false, "", ""⟩⟩
      ⟨0, ⟨none, "", true, true, true, "", false, "", false⟩, ⟨true, "", false, "", false⟩⟩
      ⟨some [("a.sh", ⟨"success", "skipped", "success", 3, "success"⟩)]⟩
      ⟨none, some "a.sh"⟩
      = .ok (⟨some [("a.sh", ⟨"success", "skipped", "success", 3, "success"⟩)]⟩, []) := by
  exact successfulArtifact_skipped _ _ _ _ _
    ⟨"success", "skipped", "success", 3, "success"⟩ rfl (Or.inl ⟨rfl, rfl⟩)

/-- The byte length of an all-ASCII replicate. -/
lemma goLen_replicate_a (n : Nat) : goLen (String.mk (List.replicate n 'a')) = n := by
  simp [goLen, List.map_replicate, List.sum_replicate, charUtf8Size]

/-- C4: a discovered shell script whose content exceeds the 10 MiB cap is
recorded as a terminal failure (`lint_status` failure, `run_status` still
pending, `overall_status` failure) and the loop moves on without creating
a temp file or invoking bash or shellcheck. -/
theorem oversizedScript_failsWithoutTools (g : GlobalCfg) (rc : RepoCfg) (env : ChangeEnv)
    (m : List (String × ScriptStatus)) (c : Change) (content : String)
    (hq : isNewShellScript c = true)
    (hns : mapLookup m c.toNameStr = none
      ∨ ∃ s, mapLookup m c.toNameStr = some s ∧ s.overallStatus ≠ "success")
    (hc : env.shell.fileContent = some content)
    (hsize : goLen content > MaxScriptSize) :
    processChange g rc env ⟨some m⟩ c
      = .ok (⟨some (mapInsert (mapInsert m c.toNameStr
            ⟨"pending", "skipped", "pending", env.now, "pending"⟩) c.toNameStr
            ⟨"failure", "skipped", "pending", env.now, "failure"⟩)⟩,
          [Ev.updateStatus c.toNameStr "pending" "skipped" "pending" "pending",
           Ev.saveStatus,
           Ev.updateStatus c.toNameStr "failure" "skipped" "pending" "failure",
           Ev.saveStatus])
    ∧ mapLookup (mapInsert (mapInsert m c.toNameStr
          ⟨"pending", "skipped", "pending", env.now, "pending"⟩) c.toNameStr
          ⟨"failure", "skipped", "pending", env.now, "failure"⟩) c.toNameStr
        = some ⟨"failure", "skipped", "pending", env.now, "failure"⟩ := by
  refine ⟨?_, mapLookup_mapInsert_self _ _ _⟩
  have hbody : shellBlockBody g rc env.shell env.now ⟨some m⟩ c.toNameStr
      = .ok (⟨some (mapInsert (mapInsert m c.toNameStr
            ⟨"pending", "skipped", "pending", env.now, "pending"⟩) c.toNameStr
            ⟨"failure", "skipped", "pending", env.now, "failure"⟩)⟩,
          [Ev.updateStatus c.toNameStr "pending" "skipped" "pending" "pending",
           Ev.saveStatus,
           Ev.updateStatus c.toNameStr "failure" "skipped" "pending" "failure",
           Ev.saveStatus], true) := by
    simp only [shellBlockBody, GoStatus.updateScriptStatus, bindPanic, hc, if_pos hsize]
    rfl
  simp only [processChange, hq, if_pos, shellBlock, GoStatus.getScriptStatus]
  rcases hns with hn | ⟨s, hs, hne⟩
  · rw [hn, hbody]
    rfl
  · rw [hs]
    simp only [if_neg hne, hbody]
    rfl

/-- Witness for `oversizedScript_failsWithoutTools`: a fresh 10 MiB + 1
byte script fails with run still pending and no tool events. -/
theorem oversizedScript_failsWithoutTools_witness :
    processChange ⟨"", false⟩ ⟨false, "", ⟨false, false, "", ""⟩⟩
      ⟨4, ⟨some (String.mk (List.replicate (MaxScriptSize + 1) 'a')),
        "/tmp/script-1.sh", true, true, true, "", false, "", false⟩,
        ⟨true, "", false, "", false⟩⟩
      ⟨some []⟩ ⟨none, some "big.sh"⟩
      = .ok (⟨some [("big.sh", ⟨"failure", "skipped", "pending", 4, "failure"⟩)]⟩,
          [Ev.updateStatus "big.sh" "pending" "skipped" "pending" "pending",
           Ev.saveStatus,
           Ev.updateStatus "big.sh" "failure" "skipped" "pending" "failure",
           Ev.saveStatus]) := by
  have h := (oversizedScript_failsWithoutTools ⟨"", false⟩ ⟨false, "", ⟨false, false, "", ""⟩⟩
    ⟨4, ⟨some (String.mk (List.replicate (MaxScriptSize + 1) 'a')),
      "/tmp/script-1.sh", true, true, true, "", false, "", false⟩,
      ⟨true, "", false, "", false⟩⟩
    [] ⟨none, some "big.sh"⟩ (String.mk (List.replicate (MaxScriptSize + 1) 'a'))
    rfl (Or.inl rfl) rfl
    (by rw [goLen_replicate_a]; omega)).1
  simpa [mapInsert] using h

/-- C5: when validation fails for a shell script, the loop records
`lint_status` failure, `run_status` pending, `overall_status` failure,
persists, removes the temp file, never invokes the run step, and goes on
with the next change of the batch. -/
theorem lintFailure_noExecution (g : GlobalCfg) (rc : RepoCfg) (env : ChangeEnv)
    (m : List (String × ScriptStatus)) (c : Change) (content : String)
    (hq : isNewShellScript c = true)
    (hns : mapLookup m c.toNameStr = none
      ∨ ∃ s, mapLookup m c.toNameStr = some s ∧ s.overallStatus ≠ "success")
    (hc : env.shell.fileContent = some content)
    (hsize : ¬ goLen content > MaxScriptSize)
    (htc : env.shell.tmpCreateOk = true)
    (htw : env.shell.tmpWriteOk = true)
    (htcl : env.shell.tmpCloseOk = true)
    (hlint : env.shell.lintErr = true) :
    processChange g rc env ⟨some m⟩ c
      = .ok (⟨some (mapInsert (mapInsert m c.toNameStr
            ⟨"pending", "skipped", "pending", env.now, "pending"⟩) c.toNameStr
            ⟨"failure", "skipped", "pending", env.now, "failure"⟩)⟩,
          [Ev.updateStatus c.toNameStr "pending" "skipped" "pending" "pending",
           Ev.saveStatus,
           Ev.createTemp env.shell.tmpName,
           Ev.writeTemp env.shell.tmpName,
           Ev.shellLint env.shell.tmpName,
           Ev.updateStatus c.toNameStr "failure" "skipped" "pending" "failure",
           Ev.saveStatus,
           Ev.removeTemp env.shell.tmpName])
    ∧ (∀ p b, Ev.shellRun p b
        ∉ [Ev.updateStatus c.toNameStr "pending" "skipped" "pending" "pending",
           Ev.saveStatus,
           Ev.createTemp env.shell.tmpName,
           Ev.writeTemp env.shell.tmpName,
           Ev.shellLint env.shell.tmpName,
           Ev.updateStatus c.toNameStr "failure" "skipped" "pending" "failure",
           Ev.saveStatus,
           Ev.removeTemp env.shell.tmpName])
    ∧ mapLookup (mapInsert (mapInsert m c.toNameStr
          ⟨"pending", "skipped", "pending", env.now, "pending"⟩) c.toNameStr
          ⟨"failure", "skipped", "pending", env.now, "failure"⟩) c.toNameStr
        = some ⟨"failure", "skipped", "pending", env.now, "failure"⟩
    ∧ (∀ rest st',
        processChange g rc env ⟨some m⟩ c = .ok st' →
        processChanges g rc ⟨some m⟩ ((c, env) :: rest)
          = bindPanic (processChanges g rc st'.1 rest) fun res2 =>
              .ok (res2.1, st'.2 ++ res2.2)) := by
  have hbody : shellBlockBody g rc env.shell env.now ⟨some m⟩ c.toNameStr
      = .ok (⟨some (mapInsert (mapInsert m c.toNameStr
            ⟨"pending", "skipped", "pending", env.now, "pending"⟩) c.toNameStr
            ⟨"failure", "skipped", "pending", env.now, "failure"⟩)⟩,
          [Ev.updateStatus c.toNameStr "pending" "skipped" "pending" "pending",
           Ev.saveStatus,
           Ev.createTemp env.shell.tmpName,
           Ev.writeTemp env.shell.tmpName,
           Ev.shellLint env.shell.tmpName,
           Ev.updateStatus c.toNameStr "failure" "skipped" "pending" "failure",
           Ev.saveStatus,
           Ev.removeTemp env.shell.tmpName], true) := by
    simp only [shellBlockBody, GoStatus.updateScriptStatus, bindPanic, hc,
      if_neg hsize, htc, htw, htcl, hlint, Bool.not_true, Bool.false_eq_true,
      if_false, if_true]
    rfl
  have hmain : processChange g rc env ⟨some m⟩ c
      = .ok (⟨some (mapInsert (mapInsert m c.toNameStr
            ⟨"pending", "skipped", "pending", env.now, "pending"⟩) c.toNameStr
            ⟨"failure", "skipped", "pending", env.now, "failure"⟩)⟩,
          [Ev.updateStatus c.toNameStr "pending" "skipped" "pending" "pending",
           Ev.saveStatus,
           Ev.createTemp env.shell.tmpName,
           Ev.writeTemp env.shell.tmpName,
           Ev.shellLint env.shell.tmpName,
           Ev.updateStatus c.toNameStr "failure" "skipped" "pending" "failure",
           Ev.saveStatus,
           Ev.removeTemp env.shell.tmpName]) := by
    simp only [processChange, hq, if_pos, shellBlock, GoStatus.getScriptStatus]
    rcases hns with hn | ⟨s, hs, hne⟩
    · rw [hn, hbody]
      rfl
    · rw [hs]
      simp only [if_neg hne, hbody]
      rfl
  refine ⟨hmain, by simp, mapLookup_mapInsert_self _ _ _, ?_⟩
  intro rest st' hst
  simp only [processChanges, hst, bindPanic]

/-- Witness for `lintFailure_noExecution`: a fresh `bad.sh` whose
validation fails is recorded as a lint failure and never run. -/
theorem lintFailure_noExecution_witness :
    processChange ⟨"", false⟩ ⟨false, "", ⟨false, false, "", ""⟩⟩
      ⟨6, ⟨some "exit 1 &&", "/tmp/script-2.sh", true, true, true,
        "syntax error near unexpected token", true, "", false⟩,
        ⟨true, "", false, "", false⟩⟩
      ⟨some []⟩ ⟨none, some "bad.sh"⟩
      = .ok (⟨some [("bad.sh", ⟨"failure", "skipped", "pending", 6, "failure"⟩)]⟩,
          [Ev.updateStatus "bad.sh" "pending" "skipped" "pending" "pending",
           Ev.saveStatus,
           Ev.createTemp "/tmp/script-2.sh",
           Ev.writeTemp "/tmp/script-2.sh",
           Ev.shellLint "/tmp/script-2.sh",
           Ev.updateStatus "bad.sh" "failure" "skipped" "pending" "failure",
           Ev.saveStatus,
           Ev.removeTemp "/tmp/script-2.sh"]) := by
  have h := (lintFailure_noExecution ⟨"", false⟩ ⟨false, "", ⟨false, false, "", ""⟩⟩
    ⟨6, ⟨some "exit 1 &&", "/tmp/script-2.sh", true, true, true,
      "syntax error near unexpected token", true, "", false⟩,
      ⟨true, "", false, "", false⟩⟩
    [] ⟨none, some "bad.sh"⟩ "exit 1 &&"
    rfl (Or.inl rfl) rfl (by decide) rfl rfl rfl rfl).1
  simpa [mapInsert] using h

end BuenosAires
